import Mathlib

/-
Verification of the `eel` block editor core (`src/block-list.ts`, `src/block.ts`).

Shallow embedding:
* JS object references are embedded as `Nat` identifiers drawn from a fresh-id
  counter (`nextId`).  A `Block` object's mutable fields live in `store`, an
  association list from block id to `BlockData`; mutating a block through any
  alias is an update of its store entry.
* DOM nodes ("surfaces") are also `Nat` identifiers.  The parts of the DOM the
  code reads are the parent chain (`parentOf`, used by
  `findNearestBlockOfDOMNode`) and the mount element's child list
  (`mountChildren`, written by appendChild/insertBefore/remove, never read).
  The mount element is the fixed node `mountId = 0`; every allocated node id is
  positive.  All nodes created by the code are `div` elements, so the
  `nodeType === Node.ELEMENT_NODE` test of `findNearestBlockOfDOMNode` is
  always true and is not modelled separately.
* The `WeakMap` `blockOfDOMNode` is `domIndex`, an association list from
  surface id to block id.  The source never deletes entries from it; neither
  does the model.
* Text content of editable surfaces is host state: the handlers that read
  `target.textContent` take the current text as an argument, mirroring the
  host adapter's `getTextContent`.
* Deferred focus requests (`setTimeout(... .focus(), 20)`) have no effect on
  any modelled state and are not represented.
-/

/-- Association-list lookup by key, the model of map/object field access:
`alookup l k` is the value of the first entry whose key is `k`. -/
def alookup {β : Type} (l : List (Nat × β)) (k : Nat) : Option β :=
  (l.find? (fun p => p.1 == k)).map (fun p => p.2)

/-- Removal of every entry with key `k` (the model of detaching a DOM node
from its parent, or of removing a key from a map). -/
def eraseKey {β : Type} (l : List (Nat × β)) (k : Nat) : List (Nat × β) :=
  l.filter (fun p => p.1 != k)

/-- Pointwise update of the entry with key `k` — the model of mutating the
object that the reference `k` denotes. -/
def storeSet {β : Type} (l : List (Nat × β)) (k : Nat) (f : β → β) :
    List (Nat × β) :=
  l.map (fun p => if p.1 = k then (p.1, f p.2) else p)

/-- A predicate transported under an `Option`: holds when the option is
`some a` and `φ a` holds.  Used to state "the lookup succeeds and the result
satisfies φ" in a decidable way. -/
def OptP {α : Type} (o : Option α) (φ : α → Prop) : Prop :=
  match o with
  | some a => φ a
  | none => False

instance {α : Type} (o : Option α) (φ : α → Prop) [inst : ∀ a, Decidable (φ a)] :
    Decidable (OptP o φ) :=
  match o with
  | some a => inst a
  | none => isFalse (fun h => h)

/-- The `NodeType` enum of block.ts:1-5. -/
inductive NodeType where
  | block
  | text
  | heading
deriving DecidableEq

/-- The concrete content-node classes of block.ts: `Text` (block.ts:80-90)
and the three heading classes `H1`, `H2`, `H3` produced by
`makeHeadingClass` (block.ts:94-108).  The classes differ only in the CSS
class of their div; all three heading classes have `type = NodeType.Heading`. -/
inductive ContentClass where
  | text
  | h1
  | h2
  | h3
deriving DecidableEq

/-- The `type` field carried by each content class. -/
def contentType : ContentClass → NodeType
  | ContentClass.text => NodeType.text
  | ContentClass.h1 => NodeType.heading
  | ContentClass.h2 => NodeType.heading
  | ContentClass.h3 => NodeType.heading

/-- A content node (`INode` child of a block): its class and the id of its
contenteditable div. -/
structure ContentNode where
  variant : ContentClass
  surface : Nat
deriving DecidableEq

/-- The mutable state of one `Block` object (block.ts:54-77): the id of its
root div (`domNode`), its single `child` content node, and whether its div
currently carries the `eelBlock--active` CSS class. -/
structure BlockData where
  surface : Nat
  child : ContentNode
  isActive : Bool
deriving DecidableEq

/-- Sets or clears the active CSS class: `Block.setActive` (block.ts:70-76). -/
def setIsActive (b : Bool) (d : BlockData) : BlockData :=
  { d with isActive := b }

/-- The id of the DOM node the editor is mounted on. -/
def mountId : Nat := 0

/-- The whole observable state of a `BlockList` (block-list.ts:6-29) plus the
allocation counter of the embedding. -/
structure BlockList where
  /-- All `Block` objects ever created, keyed by id (`new Block()` allocations). -/
  store : List (Nat × BlockData)
  /-- `this.blocks`: ids of the blocks, top to bottom (block-list.ts:8). -/
  blocks : List Nat
  /-- `this.activeBlock` (block-list.ts:12); 0 is the pre-construction sentinel. -/
  activeId : Nat
  /-- `this.blockOfDOMNode` (block-list.ts:19): surface id ↦ block id. -/
  domIndex : List (Nat × Nat)
  /-- DOM parent pointers: node id ↦ parent node id. -/
  parentOf : List (Nat × Nat)
  /-- Children of the mount element, in order (written, never read). -/
  mountChildren : List Nat
  /-- Fresh-id counter of the embedding; every id in use is below it. -/
  nextId : Nat
deriving DecidableEq

/-- Dereference a block id. -/
def storeGet (s : BlockList) (bid : Nat) : Option BlockData :=
  alookup s.store bid

/-- Direct lookup in the `blockOfDOMNode` WeakMap. -/
def lookupIndex (s : BlockList) (n : Nat) : Option Nat :=
  alookup s.domIndex n

/-- `node.parentNode`. -/
def parentNode (s : BlockList) (n : Nat) : Option Nat :=
  alookup s.parentOf n

/-- The `domNode` of the block `bid` (0 if the id dangles, which no
reachable call does). -/
def blockSurfaceOf (s : BlockList) (bid : Nat) : Nat :=
  match storeGet s bid with
  | some d => d.surface
  | none => 0

/-- Models `new Block()` (block.ts:64-67): allocates the block's root div, a
fresh `Text` child whose div is appended under the root, and the block object
itself.  Returns the new id and its initial data. -/
def allocBlock (s : BlockList) : Nat × BlockData × BlockList :=
  let bSurf := s.nextId
  let cSurf := s.nextId + 1
  let bid := s.nextId + 2
  let d : BlockData :=
    { surface := bSurf
      child := { variant := ContentClass.text, surface := cSurf }
      isActive := false }
  (bid, d,
    { s with
      store := (bid, d) :: s.store
      parentOf := (cSurf, bSurf) :: s.parentOf
      nextId := s.nextId + 3 })

/-- Models `new Text(block)` / `new H1(block)` / `new H2(block)` /
`new H3(block)`: a fresh contenteditable div for a content node of the given
class (block.ts:80-108). -/
def allocContent (s : BlockList) (v : ContentClass) : ContentNode × BlockList :=
  ({ variant := v, surface := s.nextId }, { s with nextId := s.nextId + 1 })

/-- Update one field of one block object in the store. -/
def setFlag (s : BlockList) (bid : Nat) (b : Bool) : BlockList :=
  { s with store := storeSet s.store bid (setIsActive b) }

/-- `setActiveBlock` (block-list.ts:60-70): deactivate the old active block
(optional chaining makes this a no-op before construction finishes), repoint
`activeBlock`, activate the new one.  The trailing deferred focus request has
no modelled effect. -/
def setActiveBlock (s : BlockList) (bid : Nat) : BlockList :=
  let s1 := setFlag s s.activeId false
  let s2 := { s1 with activeId := bid }
  setFlag s2 bid true

/-- `createActiveBlock` (block-list.ts:77-83): `new Block()`, make it active,
and register its root div in `blockOfDOMNode`.  Returns the new block's id
together with its creation-time data (the caller holds the object, so its
immutable `domNode` field is directly accessible). -/
def createActiveBlock (s : BlockList) : Nat × BlockData × BlockList :=
  match allocBlock s with
  | (bid, d, s1) =>
    let s2 := setActiveBlock s1 bid
    (bid, d, { s2 with domIndex := (d.surface, bid) :: s2.domIndex })

/-- `mountElement.appendChild(n)` for a node `n` that is not yet in the tree
(every call site passes a freshly created block div, so no move occurs). -/
def appendToMount (s : BlockList) (n : Nat) : BlockList :=
  { s with
    parentOf := (n, mountId) :: s.parentOf
    mountChildren := s.mountChildren ++ [n] }

/-- Insert `n` immediately before the first occurrence of `r`.  If `r` is
absent the DOM call would throw NotFoundError; no reachable call site does
(the reference is always an attached block div), and the model appends. -/
def insertBeforeList : List Nat → Nat → Nat → List Nat
  | [], n, _ => [n]
  | x :: xs, n, r => if x = r then n :: x :: xs else x :: insertBeforeList xs n r

/-- `mountElement.insertBefore(n, ref)`; `ref = none` is the JS `null`
argument, which appends. -/
def insertBeforeInMount (s : BlockList) (n : Nat) (ref : Option Nat) : BlockList :=
  { s with
    parentOf := (n, mountId) :: s.parentOf
    mountChildren :=
      match ref with
      | none => s.mountChildren ++ [n]
      | some r => insertBeforeList s.mountChildren n r }

/-- `node.remove()`: detach a node from its parent (and hence from the mount's
child list when it was a top-level block div). -/
def domRemove (s : BlockList) (n : Nat) : BlockList :=
  { s with
    parentOf := eraseKey s.parentOf n
    mountChildren := s.mountChildren.erase n }

/-- The empty pre-construction state: nothing allocated, sentinel active id. -/
def initState : BlockList :=
  { store := []
    blocks := []
    activeId := 0
    domIndex := []
    parentOf := []
    mountChildren := []
    nextId := 1 }

/-- The `BlockList` constructor (block-list.ts:21-29): create the first block
(active), push it, and append its div onto the mount element. -/
def BlockList.init : BlockList :=
  match createActiveBlock initState with
  | (bid, d, s1) =>
    let s2 := { s1 with blocks := s1.blocks ++ [bid] }
    appendToMount s2 d.surface

/-- First index of `x` in `l`, if present. -/
def firstIdx (x : Nat) : List Nat → Option Nat
  | [] => none
  | y :: ys => if y = x then some 0 else (firstIdx x ys).map (fun i => i + 1)

/-- JS `Array.prototype.indexOf`: first index, `-1` when absent. -/
def jsIndexOf (l : List Nat) (x : Nat) : Int :=
  match firstIdx x l with
  | some i => (i : Int)
  | none => -1

/-- JS array subscript `l[i]` as an `Option` (`none` is `undefined`). -/
def jsGet (l : List Nat) (i : Int) : Option Nat :=
  if 0 ≤ i then l.get? i.toNat else none

/-- JS array subscript where the code immediately uses the element as a
`Block`.  Out-of-range reads give `undefined` and the original code would
throw on first use; the model returns the dangling sentinel id 0, which no
store ever contains.  No reachable call site is out of range. -/
def jsAt (l : List Nat) (i : Int) : Nat :=
  (jsGet l i).getD 0

/-- The start-index normalisation of JS `Array.prototype.splice`. -/
def jsNormStart (len : Nat) (start : Int) : Nat :=
  if start < 0 then ((len : Int) + start).toNat else min start.toNat len

/-- Insertion at position `i` (`splice(i, 0, x)` after normalisation). -/
def insertAt : List Nat → Nat → Nat → List Nat
  | l, 0, x => x :: l
  | [], _ + 1, _ => []
  | y :: ys, i + 1, x => y :: insertAt ys i x

/-- Removal of the element at position `i` (`splice(i, 1)` after
normalisation); out-of-range removals do nothing. -/
def eraseAt : List Nat → Nat → List Nat
  | [], _ => []
  | _ :: ys, 0 => ys
  | y :: ys, i + 1 => y :: eraseAt ys i

/-- JS `l.splice(start, 0, x)` restricted to what the source uses. -/
def jsSpliceInsert (l : List Nat) (start : Int) (x : Nat) : List Nat :=
  insertAt l (jsNormStart l.length start) x

/-- JS `l.splice(start, 1)` restricted to what the source uses. -/
def jsSpliceRemove1 (l : List Nat) (start : Int) : List Nat :=
  eraseAt l (jsNormStart l.length start)

/-- `addBlockBelowCurrent` (block-list.ts:88-110): capture the previously
active block and its index, create the new active block, attach its div
(append when the previously active block was last, else insert before the
next block's div), and splice the new block into `blocks` after the captured
index (push when the captured index was last). -/
def addBlockBelowCurrent (s : BlockList) : BlockList :=
  let prev := s.activeId
  let index := jsIndexOf s.blocks prev
  match createActiveBlock s with
  | (bid, d, s1) =>
    let s2 :=
      if s1.blocks.getLast? = some prev then
        appendToMount s1 d.surface
      else
        insertBeforeInMount s1 d.surface
          ((jsGet s1.blocks (index + 1)).map (blockSurfaceOf s1))
    if index = (s2.blocks.length : Int) - 1 then
      { s2 with blocks := s2.blocks ++ [bid] }
    else
      { s2 with blocks := jsSpliceInsert s2.blocks (index + 1) bid }

/-- `arrowUp` (block-list.ts:113-118). -/
def arrowUp (s : BlockList) : BlockList :=
  let i := jsIndexOf s.blocks s.activeId
  if 1 ≤ i then setActiveBlock s (jsAt s.blocks (i - 1)) else s

/-- `arrowDown` (block-list.ts:121-126). -/
def arrowDown (s : BlockList) : BlockList :=
  let i := jsIndexOf s.blocks s.activeId
  if i < (s.blocks.length : Int) - 1 then setActiveBlock s (jsAt s.blocks (i + 1))
  else s

/-- The upward walk of `findNearestBlockOfDOMNode` (block-list.ts:41-51):
repeatedly move to the parent and return the first registered ancestor.  The
walk is fuelled; the caller passes at least the number of parent edges, which
covers any simple path in the tree. -/
def walkUp (s : BlockList) : Nat → Nat → Option Nat
  | 0, _ => none
  | fuel + 1, node =>
    match parentNode s node with
    | none => none
    | some p =>
      match lookupIndex s p with
      | some b => some b
      | none => walkUp s fuel p

/-- `findNearestBlockOfDOMNode` (block-list.ts:35-55): direct WeakMap lookup,
then the ancestor walk. -/
def findNearestBlockOfDOMNode (s : BlockList) (node : Nat) : Option Nat :=
  match lookupIndex s node with
  | some b => some b
  | none => walkUp s s.parentOf.length node

/-- `deleteBlockIfNotLast` (block-list.ts:147-164).  `index` is the JS
`indexOf` result (`-1` when absent — no reachable call passes an absent
block).  The three branches mirror lines 151-163; the element reads after
the structural updates use `jsAt`. -/
def deleteBlockIfNotLast (s : BlockList) (bid : Nat) : BlockList :=
  if s.blocks.length ≤ 1 then s
  else
    let index := jsIndexOf s.blocks bid
    let s1 := domRemove s (blockSurfaceOf s bid)
    if index = 0 then
      let s2 := { s1 with blocks := s1.blocks.tail }
      setActiveBlock s2 (jsAt s2.blocks 0)
    else if index = (s1.blocks.length : Int) - 1 then
      let s2 := { s1 with blocks := s1.blocks.dropLast }
      setActiveBlock s2 (jsAt s2.blocks (index - 1))
    else
      let s2 := { s1 with blocks := jsSpliceRemove1 s1.blocks index }
      setActiveBlock s2 (jsAt s2.blocks (index - 1))

/-- `replaceBlockChild` (block-list.ts:166-174): repoint `block.child`, and
`replaceChild` on the block's div (the old child's div is detached, the new
one attached in its place).  The deferred focus request has no modelled
effect.  Dereference of the dangling sentinel cannot happen at any call site
(callers hold the block object). -/
def replaceBlockChild (s : BlockList) (bid : Nat) (c : ContentNode) : BlockList :=
  match storeGet s bid with
  | none => s
  | some d =>
    { s with
      store := storeSet s.store bid (fun d' => { d' with child := c })
      parentOf := (c.surface, d.surface) :: eraseKey s.parentOf d.child.surface }

/-- Construction of a fresh content node of class `v` followed by
`replaceBlockChild` — the transition pattern shared by the heading branch of
`backspace` (block-list.ts:140) and all branches of `handleMutation`
(block-list.ts:183-194). -/
def transitionContent (s : BlockList) (bid : Nat) (v : ContentClass) : BlockList :=
  match allocContent s v with
  | (c, s1) => replaceBlockChild s1 bid c

/-- `backspace` (block-list.ts:129-144).  `textContent` is the target's
current text, read from the host. -/
def backspace (s : BlockList) (target : Nat) (textContent : String) : BlockList :=
  match findNearestBlockOfDOMNode s target with
  | none => s
  | some bid =>
    if textContent ≠ "" then s
    else
      match storeGet s bid with
      | none => s
      | some d =>
        match contentType d.child.variant with
        | NodeType.heading => transitionContent s bid ContentClass.text
        | NodeType.text => deleteBlockIfNotLast s bid
        | NodeType.block => s

/-- `handleMutation` (block-list.ts:176-196).  `textContent` is the target's
current text, read from the host. -/
def handleMutation (s : BlockList) (target : Nat) (textContent : String) :
    BlockList :=
  match findNearestBlockOfDOMNode s target with
  | none => s
  | some bid =>
    if textContent = "# " then transitionContent s bid ContentClass.h1
    else if textContent = "## " then transitionContent s bid ContentClass.h2
    else if textContent = "### " then transitionContent s bid ContentClass.h3
    else s

/-- Fuelled attachment test: `n` is in the rendered tree when following
parents reaches the mount element. -/
def attachedFuel (s : BlockList) : Nat → Nat → Bool
  | 0, n => n == mountId
  | fuel + 1, n =>
    n == mountId ||
      match parentNode s n with
      | none => false
      | some p => attachedFuel s fuel p

/-- A node of the host DOM is attached when its parent chain reaches the
mount element.  Keyboard and mutation events are delivered for nodes of the
rendered editor tree, so event targets are attached nodes. -/
def Attached (s : BlockList) (n : Nat) : Prop :=
  attachedFuel s s.parentOf.length n = true

instance (s : BlockList) (n : Nat) : Decidable (Attached s n) :=
  inferInstanceAs (Decidable (attachedFuel s s.parentOf.length n = true))

/-- One externally triggered operation of the block list, as driven by the
editor's event wiring: Enter inserts below the active block, ArrowUp/ArrowDown
navigate, Backspace and content mutations arrive with a target node of the
rendered tree together with its current text, and a click activates the block
resolved from a rendered node — always an element of `blocks`. -/
inductive Step : BlockList → BlockList → Prop where
  | add (s : BlockList) : Step s (addBlockBelowCurrent s)
  | up (s : BlockList) : Step s (arrowUp s)
  | down (s : BlockList) : Step s (arrowDown s)
  | back (s : BlockList) (t : Nat) (txt : String) (h : Attached s t) :
      Step s (backspace s t txt)
  | mutation (s : BlockList) (t : Nat) (txt : String) (h : Attached s t) :
      Step s (handleMutation s t txt)
  | click (s : BlockList) (b : Nat) (h : b ∈ s.blocks) :
      Step s (setActiveBlock s b)

/-- States reachable from the constructed block list. -/
inductive Reachable : BlockList → Prop where
  | init : Reachable BlockList.init
  | step {s s' : BlockList} : Reachable s → Step s s' → Reachable s'

/-- Structural well-formedness of a block's entry: its root div is registered
in the WeakMap under its own id, the root div sits directly under the mount
element, and its child's div sits directly under the root div. -/
def goodEntry (s : BlockList) (bid : Nat) (d : BlockData) : Prop :=
  lookupIndex s d.surface = some bid ∧
  parentNode s d.surface = some mountId ∧
  parentNode s d.child.surface = some d.surface

/-- Freshness discipline of the embedding: every id in use is positive and
below the counter. -/
def Fresh (s : BlockList) : Prop :=
  1 ≤ s.nextId ∧
  (∀ p ∈ s.store,
    p.1 < s.nextId ∧
    1 ≤ p.2.surface ∧ p.2.surface < s.nextId ∧
    1 ≤ p.2.child.surface ∧ p.2.child.surface < s.nextId) ∧
  (∀ e ∈ s.domIndex, 1 ≤ e.1 ∧ e.1 < s.nextId) ∧
  (∀ e ∈ s.parentOf, 1 ≤ e.1 ∧ e.1 < s.nextId ∧ e.2 < s.nextId)

/-- The invariant maintained by every reachable state of the block list. -/
def WF (s : BlockList) : Prop :=
  s.blocks ≠ [] ∧
  s.blocks.Nodup ∧
  s.activeId ∈ s.blocks ∧
  (s.store.map Prod.fst).Nodup ∧
  (s.parentOf.map Prod.fst).Nodup ∧
  (∀ p ∈ s.store, p.2.isActive = decide (p.1 = s.activeId)) ∧
  (∀ e ∈ s.domIndex, OptP (storeGet s e.2) (fun d => e.1 = d.surface)) ∧
  (∀ bid ∈ s.blocks, OptP (storeGet s bid) (fun d => goodEntry s bid d)) ∧
  (∀ e ∈ s.domIndex, e.2 ∉ s.blocks → parentNode s e.1 = none) ∧
  Fresh s

instance (s : BlockList) (bid : Nat) (d : BlockData) : Decidable (goodEntry s bid d) := by
  unfold goodEntry; infer_instance

instance (s : BlockList) : Decidable (Fresh s) := by
  unfold Fresh; infer_instance

instance (s : BlockList) : Decidable (WF s) := by
  unfold WF; infer_instance

theorem alookup_cons {β : Type} (k' : Nat) (v : β) (l : List (Nat × β)) (k : Nat) :
    alookup ((k', v) :: l) k = if k' = k then some v else alookup l k := by
  by_cases h : k' = k
  · have hb : (k' == k) = true := by simpa using h
    simp [alookup, List.find?, hb, h]
  · have hb : (k' == k) = false := by simpa using h
    simp [alookup, List.find?, hb, h]

theorem alookup_mem {β : Type} {l : List (Nat × β)} {k : Nat} {v : β}
    (h : alookup l k = some v) : (k, v) ∈ l := by
  induction l with
  | nil => simp [alookup] at h
  | cons p l ih =>
    rcases p with ⟨k', v'⟩
    rw [alookup_cons] at h
    by_cases hk : k' = k
    · simp [hk] at h
      subst hk; subst h; exact List.mem_cons_self _ _
    · simp [hk] at h
      exact List.mem_cons_of_mem _ (ih h)

theorem alookup_eq_none {β : Type} {l : List (Nat × β)} {k : Nat}
    (h : ∀ e ∈ l, e.1 ≠ k) : alookup l k = none := by
  induction l with
  | nil => rfl
  | cons p l ih =>
    rcases p with ⟨k', v'⟩
    rw [alookup_cons]
    have hk : k' ≠ k := h (k', v') (List.mem_cons_self _ _)
    simp only [hk, if_false]
    exact ih (fun e he => h e (List.mem_cons_of_mem _ he))

theorem alookup_eraseKey_self {β : Type} (l : List (Nat × β)) (k : Nat) :
    alookup (eraseKey l k) k = none := by
  apply alookup_eq_none
  intro e he
  have := List.of_mem_filter he
  simpa using this

theorem alookup_eraseKey_ne {β : Type} (l : List (Nat × β)) {k k' : Nat}
    (h : k' ≠ k) : alookup (eraseKey l k) k' = alookup l k' := by
  induction l with
  | nil => rfl
  | cons p l ih =>
    rcases p with ⟨a, b⟩
    by_cases ha : a = k
    · subst ha
      simp only [eraseKey, List.filter]
      simp only [bne_self_eq_false]
      rw [alookup_cons, if_neg (Ne.symm h)]
      exact ih
    · simp only [eraseKey, List.filter] at *
      have : (a != k) = true := by simpa using ha
      rw [this]
      rw [alookup_cons, alookup_cons]
      by_cases hak : a = k'
      · simp [hak]
      · simp only [hak, if_false]
        exact ih

theorem alookup_storeSet {β : Type} (l : List (Nat × β)) (k k' : Nat) (f : β → β) :
    alookup (storeSet l k f) k' =
      (alookup l k').map (fun v => if k' = k then f v else v) := by
  induction l with
  | nil => rfl
  | cons p l ih =>
    rcases p with ⟨a, b⟩
    have hd : storeSet ((a, b) :: l) k f
        = (if a = k then (a, f b) else (a, b)) :: storeSet l k f := rfl
    rw [hd]
    by_cases ha : a = k
    · subst ha
      by_cases hak : a = k'
      · subst hak
        simp [alookup_cons]
      · simp [alookup_cons, hak, ih]
    · by_cases hak : a = k'
      · subst hak
        simp [alookup_cons, ha]
      · simp [alookup_cons, ha, hak, ih]

theorem alookup_storeSet_self {β : Type} (l : List (Nat × β)) (k : Nat) (f : β → β) :
    alookup (storeSet l k f) k = (alookup l k).map f := by
  rw [alookup_storeSet]
  simp

theorem alookup_storeSet_ne {β : Type} (l : List (Nat × β)) {k k' : Nat} (f : β → β)
    (h : k' ≠ k) : alookup (storeSet l k f) k' = alookup l k' := by
  rw [alookup_storeSet]
  simp [h]

theorem storeSet_keys {β : Type} (l : List (Nat × β)) (k : Nat) (f : β → β) :
    (storeSet l k f).map Prod.fst = l.map Prod.fst := by
  induction l with
  | nil => rfl
  | cons p l ih =>
    rcases p with ⟨a, b⟩
    by_cases ha : a = k <;> simp [storeSet, ha] at * <;> simpa using ih

theorem eraseKey_sublist {β : Type} (l : List (Nat × β)) (k : Nat) :
    (eraseKey l k).Sublist l :=
  List.filter_sublist l

theorem mem_storeSet {β : Type} {l : List (Nat × β)} {k : Nat} {f : β → β}
    {p' : Nat × β} (h : p' ∈ storeSet l k f) :
    ∃ p ∈ l, p' = if p.1 = k then (p.1, f p.2) else p := by
  rcases List.mem_map.mp h with ⟨p, hp, he⟩
  exact ⟨p, hp, he.symm⟩

theorem firstIdx_of_mem {x : Nat} {l : List Nat} (h : x ∈ l) :
    ∃ i, firstIdx x l = some i := by
  induction l with
  | nil => cases h
  | cons y ys ih =>
    by_cases hy : y = x
    · exact ⟨0, by simp [firstIdx, hy]⟩
    · have hx : x ∈ ys := by
        rcases List.mem_cons.mp h with h' | h'
        · exact absurd h'.symm hy
        · exact h'
      rcases ih hx with ⟨i, hi⟩
      exact ⟨i + 1, by simp [firstIdx, hy, hi]⟩

theorem firstIdx_none_of_not_mem {x : Nat} {l : List Nat} (h : x ∉ l) :
    firstIdx x l = none := by
  induction l with
  | nil => rfl
  | cons y ys ih =>
    have hy : y ≠ x := fun hh => h (hh ▸ List.mem_cons_self _ _)
    have hx : x ∉ ys := fun hh => h (List.mem_cons_of_mem _ hh)
    simp [firstIdx, hy, ih hx]

theorem firstIdx_decomp {x : Nat} {l : List Nat} {i : Nat}
    (h : firstIdx x l = some i) :
    ∃ l₁ l₂, l = l₁ ++ x :: l₂ ∧ l₁.length = i := by
  induction l generalizing i with
  | nil => simp [firstIdx] at h
  | cons y ys ih =>
    by_cases hy : y = x
    · subst hy
      simp [firstIdx] at h
      exact ⟨[], ys, rfl, h⟩
    · simp only [firstIdx, hy, if_false] at h
      rcases Option.map_eq_some'.mp h with ⟨j, hj, hji⟩
      rcases ih hj with ⟨l₁, l₂, hl, hlen⟩
      exact ⟨y :: l₁, l₂, by simp [hl], by simp [hlen, hji]⟩

theorem firstIdx_append_cons {x : Nat} {l₁ : List Nat} (l₂ : List Nat)
    (h : x ∉ l₁) : firstIdx x (l₁ ++ x :: l₂) = some l₁.length := by
  induction l₁ with
  | nil => simp [firstIdx]
  | cons y ys ih =>
    have hy : y ≠ x := fun hh => h (hh ▸ List.mem_cons_self _ _)
    have hx : x ∉ ys := fun hh => h (List.mem_cons_of_mem _ hh)
    simp [firstIdx, hy, ih hx]

theorem firstIdx_lt_length {x : Nat} {l : List Nat} {i : Nat}
    (h : firstIdx x l = some i) : i < l.length := by
  rcases firstIdx_decomp h with ⟨l₁, l₂, hl, hlen⟩
  subst hl
  rw [← hlen]
  simp only [List.length_append, List.length_cons]
  omega

theorem jsIndexOf_eq {x : Nat} {l : List Nat} {i : Nat}
    (h : firstIdx x l = some i) : jsIndexOf l x = (i : Int) := by
  simp [jsIndexOf, h]

theorem jsGet_ofNat (l : List Nat) (j : Nat) : jsGet l (j : Int) = l.get? j := by
  simp [jsGet]

theorem jsAt_ofNat (l : List Nat) (j : Nat) : jsAt l (j : Int) = l.getD j 0 := by
  simp [jsAt, jsGet_ofNat, List.getD]

theorem insertAt_length_self (l : List Nat) (x : Nat) :
    insertAt l l.length x = l ++ [x] := by
  induction l with
  | nil => rfl
  | cons y ys ih => simp [insertAt, List.length, ih]

theorem jsNormStart_ofNat {len j : Nat} (h : j ≤ len) :
    jsNormStart len (j : Int) = j := by
  unfold jsNormStart
  rw [if_neg (by omega)]
  simp [Nat.min_eq_left h]

theorem eraseAt_append_cons (l₁ : List Nat) (x : Nat) (l₂ : List Nat) :
    eraseAt (l₁ ++ x :: l₂) l₁.length = l₁ ++ l₂ := by
  induction l₁ with
  | nil => rfl
  | cons y ys ih => simp [eraseAt, List.length, ih]

theorem length_insertAt {l : List Nat} {i : Nat} (x : Nat) (h : i ≤ l.length) :
    (insertAt l i x).length = l.length + 1 := by
  induction l generalizing i with
  | nil =>
    have hi : i = 0 := by simpa using h
    subst hi
    rfl
  | cons y ys ih =>
    cases i with
    | zero => rfl
    | succ j =>
      simp only [insertAt, List.length_cons]
      rw [ih (by simpa using h)]

theorem mem_insertAt_self {l : List Nat} {i : Nat} (x : Nat) (h : i ≤ l.length) :
    x ∈ insertAt l i x := by
  induction l generalizing i with
  | nil =>
    have hi : i = 0 := by simpa using h
    subst hi
    simp [insertAt]
  | cons y ys ih =>
    cases i with
    | zero => simp [insertAt]
    | succ j =>
      simp only [insertAt, List.mem_cons]
      exact Or.inr (ih (by simpa using h))

theorem mem_of_mem_insertAt {l : List Nat} {i : Nat} {x y : Nat}
    (h : y ∈ insertAt l i x) : y = x ∨ y ∈ l := by
  induction l generalizing i with
  | nil =>
    cases i with
    | zero => simpa [insertAt] using h
    | succ j => simp [insertAt] at h
  | cons z zs ih =>
    cases i with
    | zero => simpa [insertAt] using h
    | succ j =>
      rcases List.mem_cons.mp h with h' | h'
      · exact Or.inr (h' ▸ List.mem_cons_self _ _)
      · rcases ih h' with h'' | h''
        · exact Or.inl h''
        · exact Or.inr (List.mem_cons_of_mem _ h'')

theorem nodup_insertAt {l : List Nat} {i : Nat} {x : Nat} (hx : x ∉ l)
    (hl : l.Nodup) : (insertAt l i x).Nodup := by
  induction l generalizing i with
  | nil =>
    cases i with
    | zero => simp [insertAt]
    | succ j => simp [insertAt]
  | cons y ys ih =>
    cases i with
    | zero =>
      simp only [insertAt]
      exact List.nodup_cons.mpr ⟨hx, hl⟩
    | succ j =>
      simp only [insertAt]
      rcases List.nodup_cons.mp hl with ⟨hy, hys⟩
      refine List.nodup_cons.mpr ⟨?_, ih (fun hh => hx (List.mem_cons_of_mem _ hh)) hys⟩
      intro hmem
      rcases mem_of_mem_insertAt hmem with h' | h'
      · exact hx (h' ▸ List.mem_cons_self _ _)
      · exact hy h'

theorem OptP_iff {α : Type} {o : Option α} {φ : α → Prop} :
    OptP o φ ↔ ∃ a, o = some a ∧ φ a := by
  cases o <;> simp [OptP]

theorem OptP_map {α β : Type} {o : Option α} {f : α → β} {φ : β → Prop} :
    OptP (o.map f) φ ↔ OptP o (fun a => φ (f a)) := by
  cases o <;> simp [OptP]

@[simp] theorem setIsActive_surface (b : Bool) (d : BlockData) :
    (setIsActive b d).surface = d.surface := rfl

@[simp] theorem setIsActive_child (b : Bool) (d : BlockData) :
    (setIsActive b d).child = d.child := rfl

@[simp] theorem setIsActive_isActive (b : Bool) (d : BlockData) :
    (setIsActive b d).isActive = b := rfl

@[simp] theorem setActiveBlock_blocks (s : BlockList) (b : Nat) :
    (setActiveBlock s b).blocks = s.blocks := rfl

@[simp] theorem setActiveBlock_activeId (s : BlockList) (b : Nat) :
    (setActiveBlock s b).activeId = b := rfl

@[simp] theorem setActiveBlock_domIndex (s : BlockList) (b : Nat) :
    (setActiveBlock s b).domIndex = s.domIndex := rfl

@[simp] theorem setActiveBlock_parentOf (s : BlockList) (b : Nat) :
    (setActiveBlock s b).parentOf = s.parentOf := rfl

@[simp] theorem setActiveBlock_nextId (s : BlockList) (b : Nat) :
    (setActiveBlock s b).nextId = s.nextId := rfl

theorem setActiveBlock_store (s : BlockList) (b : Nat) :
    (setActiveBlock s b).store =
      storeSet (storeSet s.store s.activeId (setIsActive false)) b
        (setIsActive true) := rfl

@[simp] theorem lookupIndex_setActiveBlock (s : BlockList) (b n : Nat) :
    lookupIndex (setActiveBlock s b) n = lookupIndex s n := rfl

@[simp] theorem parentNode_setActiveBlock (s : BlockList) (b n : Nat) :
    parentNode (setActiveBlock s b) n = parentNode s n := rfl

theorem storeGet_setActiveBlock (s : BlockList) (b k : Nat) :
    storeGet (setActiveBlock s b) k =
      (storeGet s k).map (fun d =>
        if k = b then setIsActive true d
        else if k = s.activeId then setIsActive false d else d) := by
  show alookup (storeSet (storeSet s.store s.activeId (setIsActive false)) b
      (setIsActive true)) k = _
  rw [alookup_storeSet, alookup_storeSet]
  simp only [storeGet]
  cases h : alookup s.store k with
  | none => simp
  | some d =>
    simp only [Option.map_some']
    by_cases hb : k = b
    · rw [if_pos hb, if_pos hb]
      by_cases ha : k = s.activeId
      · rw [if_pos ha]
        rfl
      · rw [if_neg ha]
    · rw [if_neg hb, if_neg hb]

theorem activeFlags_after (st : List (Nat × BlockData)) (old a : Nat)
    (h : ∀ p ∈ st, p.2.isActive = decide (p.1 = old)) :
    ∀ p ∈ storeSet (storeSet st old (setIsActive false)) a (setIsActive true),
      p.2.isActive = decide (p.1 = a) := by
  intro p hp
  rcases mem_storeSet hp with ⟨q, hq, rfl⟩
  rcases mem_storeSet hq with ⟨r, hr, rfl⟩
  by_cases h1 : r.1 = old
  · rw [if_pos h1]
    by_cases h2 : old = a
    · have hra : r.1 = a := h1.trans h2
      rw [if_pos hra]
      simp [hra]
    · have hna : ¬(r.1 = a) := fun hh => h2 (h1.symm.trans hh)
      rw [if_neg hna]
      simp [hna]
  · rw [if_neg h1]
    by_cases h2 : r.1 = a
    · rw [if_pos h2]
      simp [h2]
    · rw [if_neg h2]
      simp [h2, h r hr, h1]

theorem fresh_store_bounds {st : List (Nat × BlockData)} {n : Nat}
    (hs : ∀ p ∈ st, p.1 < n ∧ 1 ≤ p.2.surface ∧ p.2.surface < n ∧
      1 ≤ p.2.child.surface ∧ p.2.child.surface < n)
    (k : Nat) (f : BlockData → BlockData)
    (hf : ∀ d, (f d).surface = d.surface ∧ (f d).child = d.child) :
    ∀ p ∈ storeSet st k f, p.1 < n ∧ 1 ≤ p.2.surface ∧ p.2.surface < n ∧
      1 ≤ p.2.child.surface ∧ p.2.child.surface < n := by
  intro p hp
  rcases mem_storeSet hp with ⟨q, hq, rfl⟩
  have hb := hs q hq
  by_cases h : q.1 = k
  · rw [if_pos h]
    rcases hf q.2 with ⟨h1, h2⟩
    simpa [h1, h2] using hb
  · rw [if_neg h]
    exact hb

theorem wf_setActiveBlock {s : BlockList} {b : Nat} (hwf : WF s)
    (hb : b ∈ s.blocks) : WF (setActiveBlock s b) := by
  obtain ⟨hne, hnd, _, hsk, hpk, haf, hdi, hlb, hst, hfr⟩ := hwf
  refine ⟨hne, hnd, hb, ?_, hpk, ?_, ?_, ?_, hst, ?_⟩
  · rw [setActiveBlock_store, storeSet_keys, storeSet_keys]
    exact hsk
  · rw [setActiveBlock_store]
    simpa using activeFlags_after s.store s.activeId b haf
  · intro e he
    rcases OptP_iff.mp (hdi e he) with ⟨d, hd, hsurf⟩
    have hgv : storeGet (setActiveBlock s b) e.2 =
        some (if e.2 = b then setIsActive true d
          else if e.2 = s.activeId then setIsActive false d else d) := by
      rw [storeGet_setActiveBlock, hd]
      rfl
    rw [OptP_iff]
    refine ⟨_, hgv, ?_⟩
    split
    · simpa using hsurf
    · split <;> simpa using hsurf
  · intro bid hbid
    rcases OptP_iff.mp (hlb bid hbid) with ⟨d, hd, hgood⟩
    have hgv : storeGet (setActiveBlock s b) bid =
        some (if bid = b then setIsActive true d
          else if bid = s.activeId then setIsActive false d else d) := by
      rw [storeGet_setActiveBlock, hd]
      rfl
    rcases hgood with ⟨h1, h2, h3⟩
    rw [OptP_iff]
    refine ⟨_, hgv, ?_, ?_, ?_⟩
    · show lookupIndex (setActiveBlock s b) _ = _
      split
      · simpa using h1
      · split <;> simpa using h1
    · show parentNode (setActiveBlock s b) _ = _
      split
      · simpa using h2
      · split <;> simpa using h2
    · show parentNode (setActiveBlock s b) _ = _
      split
      · simpa using h3
      · split <;> simpa using h3
  · obtain ⟨hn, hs, hd, hp⟩ := hfr
    refine ⟨hn, ?_, hd, hp⟩
    rw [setActiveBlock_store]
    exact fresh_store_bounds
      (fresh_store_bounds hs s.activeId (setIsActive false) (fun d => ⟨rfl, rfl⟩))
      b (setIsActive true) (fun d => ⟨rfl, rfl⟩)

theorem lookupIndex_mount_none {s : BlockList} (hwf : WF s) :
    lookupIndex s mountId = none := by
  obtain ⟨_, _, _, _, _, _, _, _, _, _, _, hdiB, _⟩ := hwf
  refine alookup_eq_none fun e he => ?_
  have := hdiB e he
  simp only [mountId]
  omega

theorem parentNode_mount_none {s : BlockList} (hwf : WF s) :
    parentNode s mountId = none := by
  obtain ⟨_, _, _, _, _, _, _, _, _, _, _, _, hpoB⟩ := hwf
  refine alookup_eq_none fun e he => ?_
  have := hpoB e he
  simp only [mountId]
  omega

theorem lookup_live {s : BlockList} (hwf : WF s) {t bid : Nat}
    (hlk : lookupIndex s t = some bid) (hpar : parentNode s t ≠ none) :
    bid ∈ s.blocks := by
  by_contra hnb
  obtain ⟨_, _, _, _, _, _, _, _, hst, _⟩ := hwf
  exact hpar (hst (t, bid) (alookup_mem hlk) hnb)

theorem attached_parent {s : BlockList} {n p : Nat}
    (h : attachedFuel s n p = true) : p = mountId ∨ parentNode s p ≠ none := by
  cases n with
  | zero =>
    simp only [attachedFuel] at h
    exact Or.inl (by simpa using h)
  | succ m =>
    by_cases hm : p = mountId
    · exact Or.inl hm
    · right
      simp only [attachedFuel] at h
      have hb : (p == mountId) = false := by simpa using hm
      rw [hb, Bool.false_or] at h
      cases hp : parentNode s p with
      | none =>
        rw [hp] at h
        cases h
      | some q => simp

theorem walkUp_live {s : BlockList} (hwf : WF s) :
    ∀ fuel t bid, attachedFuel s fuel t = true → walkUp s fuel t = some bid →
      bid ∈ s.blocks := by
  intro fuel
  induction fuel with
  | zero =>
    intro t bid _ hw
    simp [walkUp] at hw
  | succ n ih =>
    intro t bid hat hw
    have hw2 : (match parentNode s t with
        | none => none
        | some q =>
          match lookupIndex s q with
          | some b => some b
          | none => walkUp s n q) = some bid := hw
    cases hp : parentNode s t with
    | none =>
      rw [hp] at hw2
      cases hw2
    | some p =>
      rw [hp] at hw2
      have hw3 : (match lookupIndex s p with
          | some b => some b
          | none => walkUp s n p) = some bid := hw2
      have hatp : attachedFuel s n p = true := by
        simp only [attachedFuel] at hat
        have hm : (t == mountId) = false := by
          by_cases hm' : t = mountId
          · exfalso
            rw [hm'] at hp
            rw [parentNode_mount_none hwf] at hp
            cases hp
          · simpa using hm'
        rw [hm, Bool.false_or, hp] at hat
        exact hat
      cases hlk : lookupIndex s p with
      | some b =>
        rw [hlk] at hw3
        have hb : some b = some bid := hw3
        cases hb
        rcases attached_parent hatp with hm | hpp
        · exfalso
          rw [hm, lookupIndex_mount_none hwf] at hlk
          cases hlk
        · exact lookup_live hwf hlk hpp
      | none =>
        rw [hlk] at hw3
        exact ih p bid hatp hw3

theorem resolve_mem_blocks {s : BlockList} (hwf : WF s) {t bid : Nat}
    (hat : Attached s t) (hres : findNearestBlockOfDOMNode s t = some bid) :
    bid ∈ s.blocks := by
  unfold findNearestBlockOfDOMNode at hres
  cases hlk : lookupIndex s t with
  | some b =>
    rw [hlk] at hres
    cases hres
    rcases attached_parent hat with hm | hp
    · exfalso
      rw [hm, lookupIndex_mount_none hwf] at hlk
      cases hlk
    · exact lookup_live hwf hlk hp
  | none =>
    rw [hlk] at hres
    exact walkUp_live hwf _ t bid hat hres

theorem getD_mem : ∀ {l : List Nat} {j : Nat}, j < l.length → l.getD j 0 ∈ l
  | _ :: _, 0, _ => List.mem_cons_self _ _
  | _ :: l, j + 1, h => List.mem_cons_of_mem _ (getD_mem (by simpa using h))

theorem wf_arrowUp {s : BlockList} (hwf : WF s) : WF (arrowUp s) := by
  unfold arrowUp
  have ham : s.activeId ∈ s.blocks := hwf.2.2.1
  rcases firstIdx_of_mem ham with ⟨i, hi⟩
  rw [jsIndexOf_eq hi]
  by_cases h1 : 1 ≤ (i : Int)
  · rw [if_pos h1]
    have hlen : i < s.blocks.length := firstIdx_lt_length hi
    have hcast : (i : Int) - 1 = ((i - 1 : Nat) : Int) := by omega
    rw [hcast, jsAt_ofNat]
    exact wf_setActiveBlock hwf (getD_mem (by omega))
  · rw [if_neg h1]
    exact hwf

theorem wf_arrowDown {s : BlockList} (hwf : WF s) : WF (arrowDown s) := by
  unfold arrowDown
  have ham : s.activeId ∈ s.blocks := hwf.2.2.1
  rcases firstIdx_of_mem ham with ⟨i, hi⟩
  rw [jsIndexOf_eq hi]
  by_cases h1 : (i : Int) < (s.blocks.length : Int) - 1
  · rw [if_pos h1]
    have hcast : (i : Int) + 1 = ((i + 1 : Nat) : Int) := by omega
    rw [hcast, jsAt_ofNat]
    exact wf_setActiveBlock hwf (getD_mem (by omega))
  · rw [if_neg h1]
    exact hwf

theorem replaceBlockChild_eq {s : BlockList} {bid : Nat} {d : BlockData}
    (c : ContentNode) (hd : storeGet s bid = some d) :
    replaceBlockChild s bid c =
      { s with
        store := storeSet s.store bid (fun d' => { d' with child := c })
        parentOf := (c.surface, d.surface) :: eraseKey s.parentOf d.child.surface } := by
  unfold replaceBlockChild
  rw [hd]

theorem transitionContent_eq {s : BlockList} {bid : Nat} {d : BlockData}
    (v : ContentClass) (hd : storeGet s bid = some d) :
    transitionContent s bid v =
      { s with
        store := storeSet s.store bid
          (fun d' => { d' with child := ⟨v, s.nextId⟩ })
        parentOf := (s.nextId, d.surface) :: eraseKey s.parentOf d.child.surface
        nextId := s.nextId + 1 } := by
  have h1 : transitionContent s bid v
      = replaceBlockChild { s with nextId := s.nextId + 1 } bid ⟨v, s.nextId⟩ := rfl
  have hd' : storeGet { s with nextId := s.nextId + 1 } bid = some d := hd
  rw [h1, replaceBlockChild_eq ⟨v, s.nextId⟩ hd']

theorem optp_alookup_storeSet {st : List (Nat × BlockData)} {k j : Nat}
    {f : BlockData → BlockData} {φ : BlockData → Prop}
    (hφ : ∀ d, φ d → φ (f d))
    (h : OptP (alookup st j) φ) : OptP (alookup (storeSet st k f) j) φ := by
  rw [alookup_storeSet, OptP_map]
  rw [OptP_iff] at h ⊢
  rcases h with ⟨d, hd, hφd⟩
  refine ⟨d, hd, ?_⟩
  split
  · exact hφ d hφd
  · exact hφd

theorem not_mem_keys_of_lt {β : Type} {l : List (Nat × β)} {n : Nat}
    (h : ∀ e ∈ l, e.1 < n) : n ∉ l.map Prod.fst := by
  intro hm
  rcases List.mem_map.mp hm with ⟨e, he, he1⟩
  have := h e he
  omega

theorem alookup_of_bound {β : Type} {l : List (Nat × β)} {n : Nat}
    (h : ∀ e ∈ l, e.1 < n) : alookup l n = none :=
  alookup_eq_none fun e he => by have := h e he; omega

theorem wf_transitionContent {s : BlockList} {bid : Nat} {v : ContentClass}
    (hwf : WF s) (hb : bid ∈ s.blocks) : WF (transitionContent s bid v) := by
  obtain ⟨hne, hnd, ham, hsk, hpk, haf, hdi, hlb, hst, hfr⟩ := hwf
  obtain ⟨hn1, hsB, hdiB, hpoB⟩ := hfr
  rcases OptP_iff.mp (hlb bid hb) with ⟨d, hd, hg1, hg2, hg3⟩
  have hd' : alookup s.store bid = some d := hd
  have hg1' : alookup s.domIndex d.surface = some bid := hg1
  have hg2' : alookup s.parentOf d.surface = some mountId := hg2
  have hg3' : alookup s.parentOf d.child.surface = some d.surface := hg3
  have hmem := alookup_mem hd'
  have hbidB : bid < s.nextId ∧ 1 ≤ d.surface ∧ d.surface < s.nextId ∧
      1 ≤ d.child.surface ∧ d.child.surface < s.nextId := hsB _ hmem
  have hdsne : d.surface ≠ d.child.surface := by
    intro he
    rw [he, hg3'] at hg2'
    have h0 : d.surface = mountId := Option.some.inj hg2'
    simp only [mountId] at h0
    omega
  rw [transitionContent_eq v hd]
  refine ⟨hne, hnd, ham, ?_, ?_, ?_, ?_, ?_, ?_, ?_⟩
  · show (List.map Prod.fst (storeSet s.store bid
      (fun d' => { d' with child := ⟨v, s.nextId⟩ }))).Nodup
    rw [storeSet_keys]
    exact hsk
  · show (List.map Prod.fst ((s.nextId, d.surface) ::
      eraseKey s.parentOf d.child.surface)).Nodup
    rw [List.map_cons]
    refine List.nodup_cons.mpr ⟨?_, ?_⟩
    · exact not_mem_keys_of_lt
        (fun e he => ((hpoB e ((eraseKey_sublist _ _).mem he)).2).1)
    · exact hpk.sublist ((eraseKey_sublist _ _).map Prod.fst)
  · show ∀ p ∈ storeSet s.store bid (fun d' => { d' with child := ⟨v, s.nextId⟩ }),
      p.2.isActive = decide (p.1 = s.activeId)
    intro p hp
    rcases mem_storeSet hp with ⟨q, hq, rfl⟩
    by_cases h : q.1 = bid
    · rw [if_pos h]
      simpa using haf q hq
    · rw [if_neg h]
      exact haf q hq
  · show ∀ e ∈ s.domIndex, OptP (alookup (storeSet s.store bid
      (fun d' => { d' with child := ⟨v, s.nextId⟩ })) e.2) (fun db => e.1 = db.surface)
    intro e he
    exact optp_alookup_storeSet (fun d' hd' => hd') (hdi e he)
  · show ∀ blk ∈ s.blocks, OptP (alookup (storeSet s.store bid
        (fun d' => { d' with child := ⟨v, s.nextId⟩ })) blk)
      (fun db =>
        alookup s.domIndex db.surface = some blk ∧
        alookup ((s.nextId, d.surface) :: eraseKey s.parentOf d.child.surface)
          db.surface = some mountId ∧
        alookup ((s.nextId, d.surface) :: eraseKey s.parentOf d.child.surface)
          db.child.surface = some db.surface)
    intro blk hblk
    by_cases hbb : blk = bid
    · subst hbb
      have hg : alookup (storeSet s.store blk
          (fun d' => { d' with child := ⟨v, s.nextId⟩ })) blk
          = some { d with child := ⟨v, s.nextId⟩ } := by
        rw [alookup_storeSet_self, hd']
        rfl
      rw [OptP_iff]
      refine ⟨_, hg, ?_, ?_, ?_⟩
      · exact hg1'
      · dsimp only
        rw [alookup_cons, if_neg (by omega), alookup_eraseKey_ne _ hdsne]
        exact hg2'
      · show alookup ((s.nextId, d.surface) :: eraseKey s.parentOf d.child.surface)
          s.nextId = some d.surface
        rw [alookup_cons, if_pos rfl]
    · rcases OptP_iff.mp (hlb blk hblk) with ⟨db, hdb, hb1, hb2, hb3⟩
      have hdb' : alookup s.store blk = some db := hdb
      have hb1' : alookup s.domIndex db.surface = some blk := hb1
      have hb2' : alookup s.parentOf db.surface = some mountId := hb2
      have hb3' : alookup s.parentOf db.child.surface = some db.surface := hb3
      have hmemb := alookup_mem hdb'
      have hdbB : blk < s.nextId ∧ 1 ≤ db.surface ∧ db.surface < s.nextId ∧
          1 ≤ db.child.surface ∧ db.child.surface < s.nextId := hsB _ hmemb
      have hsurfne : db.surface ≠ d.child.surface := by
        intro he
        rw [he, hg3'] at hb2'
        have h0 : d.surface = mountId := Option.some.inj hb2'
        simp only [mountId] at h0
        omega
      have hchildne : db.child.surface ≠ d.child.surface := by
        intro he
        rw [he, hg3'] at hb3'
        have hss : db.surface = d.surface := (Option.some.inj hb3').symm
        rw [hss] at hb1'
        rw [hb1'] at hg1'
        exact hbb (Option.some.inj hg1')
      have hgb : alookup (storeSet s.store bid
          (fun d' => { d' with child := ⟨v, s.nextId⟩ })) blk = some db := by
        rw [alookup_storeSet_ne _ _ hbb]
        exact hdb'
      rw [OptP_iff]
      refine ⟨_, hgb, ?_, ?_, ?_⟩
      · exact hb1'
      · rw [alookup_cons, if_neg (by omega), alookup_eraseKey_ne _ hsurfne]
        exact hb2'
      · rw [alookup_cons, if_neg (by omega), alookup_eraseKey_ne _ hchildne]
        exact hb3'
  · show ∀ e ∈ s.domIndex, e.2 ∉ s.blocks →
      alookup ((s.nextId, d.surface) :: eraseKey s.parentOf d.child.surface) e.1 = none
    intro e he hnb
    have hold : alookup s.parentOf e.1 = none := hst e he hnb
    have heB := hdiB e he
    rw [alookup_cons, if_neg (by omega)]
    by_cases hcs : e.1 = d.child.surface
    · rw [hcs]
      exact alookup_eraseKey_self _ _
    · rw [alookup_eraseKey_ne _ hcs]
      exact hold
  · refine ⟨?_, ?_, ?_, ?_⟩
    · show 1 ≤ s.nextId + 1
      omega
    · show ∀ p ∈ storeSet s.store bid (fun d' => { d' with child := ⟨v, s.nextId⟩ }),
        p.1 < s.nextId + 1 ∧ 1 ≤ p.2.surface ∧ p.2.surface < s.nextId + 1 ∧
        1 ≤ p.2.child.surface ∧ p.2.child.surface < s.nextId + 1
      intro p hp
      rcases mem_storeSet hp with ⟨q, hq, rfl⟩
      have hqB : q.1 < s.nextId ∧ 1 ≤ q.2.surface ∧ q.2.surface < s.nextId ∧
          1 ≤ q.2.child.surface ∧ q.2.child.surface < s.nextId := hsB q hq
      by_cases h : q.1 = bid
      · rw [if_pos h]
        dsimp only
        exact ⟨by omega, by omega, by omega, by omega, by omega⟩
      · rw [if_neg h]
        exact ⟨by omega, by omega, by omega, by omega, by omega⟩
    · show ∀ e ∈ s.domIndex, 1 ≤ e.1 ∧ e.1 < s.nextId + 1
      intro e he
      have := hdiB e he
      exact ⟨by omega, by omega⟩
    · show ∀ e ∈ (s.nextId, d.surface) :: eraseKey s.parentOf d.child.surface,
        1 ≤ e.1 ∧ e.1 < s.nextId + 1 ∧ e.2 < s.nextId + 1
      intro e he
      rcases List.mem_cons.mp he with he' | he'
      · rw [he']
        dsimp only
        exact ⟨by omega, by omega, by omega⟩
      · have := hpoB e ((eraseKey_sublist _ _).mem he')
        exact ⟨by omega, by omega, by omega⟩

theorem nodup_decomp {l₁ l₂ : List Nat} {x : Nat}
    (h : (l₁ ++ x :: l₂).Nodup) : x ∉ l₁ ∧ x ∉ l₂ := by
  rw [List.nodup_append] at h
  rcases h with ⟨_, h2, hdisj⟩
  rcases List.nodup_cons.mp h2 with ⟨hx2, _⟩
  exact ⟨fun hx1 => (hdisj hx1) (List.mem_cons_self _ _), hx2⟩

@[simp] theorem domRemove_blocks (s : BlockList) (n : Nat) :
    (domRemove s n).blocks = s.blocks := rfl

theorem flagVal_surface (c1 c2 : Prop) [Decidable c1] [Decidable c2]
    (db : BlockData) :
    (if c1 then setIsActive true (if c2 then setIsActive false db else db)
      else (if c2 then setIsActive false db else db)).surface = db.surface := by
  split <;> split <;> rfl

theorem flagVal_child (c1 c2 : Prop) [Decidable c1] [Decidable c2]
    (db : BlockData) :
    (if c1 then setIsActive true (if c2 then setIsActive false db else db)
      else (if c2 then setIsActive false db else db)).child = db.child := by
  split <;> split <;> rfl

theorem delete_core {s : BlockList} {bid a : Nat} {d : BlockData}
    {blocks' : List Nat}
    (hwf : WF s) (hd : alookup s.store bid = some d) (hbm : bid ∈ s.blocks)
    (hsub : blocks'.Sublist s.blocks) (hnb : bid ∉ blocks')
    (hcov : ∀ b ∈ s.blocks, b = bid ∨ b ∈ blocks')
    (hne' : blocks' ≠ []) (ha : a ∈ blocks') :
    WF { s with
      store := storeSet (storeSet s.store s.activeId (setIsActive false)) a
        (setIsActive true)
      blocks := blocks'
      activeId := a
      parentOf := eraseKey s.parentOf d.surface
      mountChildren := s.mountChildren.erase d.surface } := by
  obtain ⟨hne, hnd, ham, hsk, hpk, haf, hdi, hlb, hst, hfr⟩ := hwf
  obtain ⟨hn1, hsB, hdiB, hpoB⟩ := hfr
  rcases OptP_iff.mp (hlb bid hbm) with ⟨d0, hd0, hg1, hg2, hg3⟩
  have hd0' : alookup s.store bid = some d0 := hd0
  rw [hd] at hd0'
  have hdd : d = d0 := Option.some.inj hd0'
  subst hdd
  have hg1' : alookup s.domIndex d.surface = some bid := hg1
  have hg2' : alookup s.parentOf d.surface = some mountId := hg2
  have hg3' : alookup s.parentOf d.child.surface = some d.surface := hg3
  refine ⟨hne', hnd.sublist hsub, ha, ?_, ?_, ?_, ?_, ?_, ?_, ?_⟩
  · show (List.map Prod.fst (storeSet (storeSet s.store s.activeId
      (setIsActive false)) a (setIsActive true))).Nodup
    rw [storeSet_keys, storeSet_keys]
    exact hsk
  · show (List.map Prod.fst (eraseKey s.parentOf d.surface)).Nodup
    exact hpk.sublist ((eraseKey_sublist _ _).map Prod.fst)
  · show ∀ p ∈ storeSet (storeSet s.store s.activeId (setIsActive false)) a
      (setIsActive true), p.2.isActive = decide (p.1 = a)
    exact activeFlags_after s.store s.activeId a haf
  · show ∀ e ∈ s.domIndex, OptP (alookup (storeSet (storeSet s.store s.activeId
      (setIsActive false)) a (setIsActive true)) e.2) (fun db => e.1 = db.surface)
    intro e he
    exact optp_alookup_storeSet (fun d' h' => h')
      (optp_alookup_storeSet (fun d' h' => h') (hdi e he))
  · show ∀ blk ∈ blocks', OptP (alookup (storeSet (storeSet s.store s.activeId
        (setIsActive false)) a (setIsActive true)) blk)
      (fun db =>
        alookup s.domIndex db.surface = some blk ∧
        alookup (eraseKey s.parentOf d.surface) db.surface = some mountId ∧
        alookup (eraseKey s.parentOf d.surface) db.child.surface
          = some db.surface)
    intro blk hblk
    have hblkS : blk ∈ s.blocks := hsub.subset hblk
    have hbne : blk ≠ bid := fun he => hnb (he ▸ hblk)
    rcases OptP_iff.mp (hlb blk hblkS) with ⟨db, hdb, hb1, hb2, hb3⟩
    have hdb' : alookup s.store blk = some db := hdb
    have hb1' : alookup s.domIndex db.surface = some blk := hb1
    have hb2' : alookup s.parentOf db.surface = some mountId := hb2
    have hb3' : alookup s.parentOf db.child.surface = some db.surface := hb3
    have hmemb := alookup_mem hdb'
    have hdbB : blk < s.nextId ∧ 1 ≤ db.surface ∧ db.surface < s.nextId ∧
        1 ≤ db.child.surface ∧ db.child.surface < s.nextId := hsB _ hmemb
    have hsne : db.surface ≠ d.surface := by
      intro he
      rw [he, hg1'] at hb1'
      exact hbne (Option.some.inj hb1').symm
    have hcne : db.child.surface ≠ d.surface := by
      intro he
      rw [he, hg2'] at hb3'
      have h0 : db.surface = mountId := (Option.some.inj hb3').symm
      simp only [mountId] at h0
      omega
    have hgb : alookup (storeSet (storeSet s.store s.activeId (setIsActive false))
        a (setIsActive true)) blk
        = some (if blk = a
            then setIsActive true (if blk = s.activeId then setIsActive false db
              else db)
            else (if blk = s.activeId then setIsActive false db else db)) := by
      rw [alookup_storeSet, alookup_storeSet, hdb']
      rfl
    rw [OptP_iff]
    refine ⟨_, hgb, ?_, ?_, ?_⟩
    · rw [flagVal_surface]
      exact hb1'
    · rw [flagVal_surface, alookup_eraseKey_ne _ hsne]
      exact hb2'
    · rw [flagVal_child, flagVal_surface, alookup_eraseKey_ne _ hcne]
      exact hb3'
  · show ∀ e ∈ s.domIndex, e.2 ∉ blocks' →
      alookup (eraseKey s.parentOf d.surface) e.1 = none
    intro e he hnb2
    by_cases hold : e.2 ∈ s.blocks
    · rcases hcov e.2 hold with he2 | he2
      · rcases OptP_iff.mp (hdi e he) with ⟨de, hde, hesurf⟩
        have hde' : alookup s.store e.2 = some de := hde
        rw [he2, hd] at hde'
        have hdde : d = de := Option.some.inj hde'
        rw [hesurf, ← hdde]
        exact alookup_eraseKey_self _ _
      · exact absurd he2 hnb2
    · have h9 : alookup s.parentOf e.1 = none := hst e he hold
      by_cases hcs : e.1 = d.surface
      · rw [hcs]
        exact alookup_eraseKey_self _ _
      · rw [alookup_eraseKey_ne _ hcs]
        exact h9
  · refine ⟨?_, ?_, ?_, ?_⟩
    · show 1 ≤ s.nextId
      exact hn1
    · show ∀ p ∈ storeSet (storeSet s.store s.activeId (setIsActive false)) a
        (setIsActive true), p.1 < s.nextId ∧ 1 ≤ p.2.surface ∧
        p.2.surface < s.nextId ∧ 1 ≤ p.2.child.surface ∧
        p.2.child.surface < s.nextId
      exact fresh_store_bounds
        (fresh_store_bounds hsB s.activeId (setIsActive false)
          (fun d => ⟨rfl, rfl⟩))
        a (setIsActive true) (fun d => ⟨rfl, rfl⟩)
    · show ∀ e ∈ s.domIndex, 1 ≤ e.1 ∧ e.1 < s.nextId
      exact hdiB
    · show ∀ e ∈ eraseKey s.parentOf d.surface,
        1 ≤ e.1 ∧ e.1 < s.nextId ∧ e.2 < s.nextId
      intro e he
      exact hpoB e ((eraseKey_sublist _ _).mem he)

theorem wf_deleteBlockIfNotLast {s : BlockList} {bid : Nat} (hwf : WF s)
    (hb : bid ∈ s.blocks) : WF (deleteBlockIfNotLast s bid) := by
  obtain ⟨hne, hnd, ham, hsk, hpk, haf, hdi, hlb, hst, hfr⟩ := hwf
  have hwf' : WF s := ⟨hne, hnd, ham, hsk, hpk, haf, hdi, hlb, hst, hfr⟩
  unfold deleteBlockIfNotLast
  by_cases hlen : s.blocks.length ≤ 1
  · rw [if_pos hlen]
    exact hwf'
  · rw [if_neg hlen]
    rcases firstIdx_of_mem hb with ⟨i, hi⟩
    have hilt : i < s.blocks.length := firstIdx_lt_length hi
    rcases OptP_iff.mp (hlb bid hb) with ⟨d, hd, _, _, _⟩
    have hd' : alookup s.store bid = some d := hd
    have hbs : blockSurfaceOf s bid = d.surface := by
      unfold blockSurfaceOf
      rw [hd]
    rcases firstIdx_decomp hi with ⟨l₁, l₂, hdec, hlen₁⟩
    have hLen : s.blocks.length = l₁.length + 1 + l₂.length := by
      rw [hdec]
      simp only [List.length_append, List.length_cons]
      omega
    have hnodec : bid ∉ l₁ ∧ bid ∉ l₂ := nodup_decomp (hdec ▸ hnd)
    simp only [jsIndexOf_eq hi, hbs, domRemove_blocks]
    by_cases hi0 : (i : Int) = 0
    · rw [if_pos hi0]
      have hieq : i = 0 := by omega
      have hl₁nil : l₁ = [] := List.length_eq_zero.mp (by omega)
      have hdec0 : s.blocks = bid :: l₂ := by
        rw [hdec, hl₁nil]
        rfl
      have ht : s.blocks.tail = l₂ := by
        rw [hdec0]
        rfl
      have htne : s.blocks.tail ≠ [] := by
        rw [ht]
        intro hc
        rw [hc] at hLen
        simp at hLen
        omega
      have hamem : jsAt s.blocks.tail 0 ∈ s.blocks.tail := by
        have ha' : jsAt s.blocks.tail 0 = s.blocks.tail.getD 0 0 :=
          jsAt_ofNat s.blocks.tail 0
        rw [ha']
        exact getD_mem (List.length_pos.mpr htne)
      refine delete_core hwf' hd' hb (List.tail_sublist _) ?_ ?_ htne hamem
      · rw [ht]
        exact hnodec.2
      · intro b hbm
        rw [hdec0] at hbm
        rcases List.mem_cons.mp hbm with h' | h'
        · exact Or.inl h'
        · exact Or.inr (by rw [ht]; exact h')
    · rw [if_neg hi0]
      by_cases hiL : (i : Int) = (s.blocks.length : Int) - 1
      · rw [if_pos hiL]
        have hi1 : 1 ≤ i := by omega
        have hl₂nil : l₂ = [] := List.length_eq_zero.mp (by omega)
        have hdecL : s.blocks = l₁ ++ [bid] := by
          rw [hdec, hl₂nil]
        have hdl : s.blocks.dropLast = l₁ := by
          rw [hdecL]
          simp
        have hdlne : s.blocks.dropLast ≠ [] := by
          rw [hdl]
          intro hc
          rw [hc] at hlen₁
          simp at hlen₁
          omega
        have hdLen : s.blocks.dropLast.length = i := by
          rw [hdl, hlen₁]
        have hamem : jsAt s.blocks.dropLast ((i : Int) - 1) ∈ s.blocks.dropLast := by
          have hc : (i : Int) - 1 = ((i - 1 : Nat) : Int) := by omega
          rw [hc, jsAt_ofNat]
          exact getD_mem (by omega)
        refine delete_core hwf' hd' hb (List.dropLast_sublist _) ?_ ?_ hdlne hamem
        · rw [hdl]
          exact hnodec.1
        · intro b hbm
          rw [hdecL] at hbm
          rcases List.mem_append.mp hbm with h' | h'
          · exact Or.inr (by rw [hdl]; exact h')
          · exact Or.inl (by simpa using h')
      · rw [if_neg hiL]
        have hi1 : 1 ≤ i := by omega
        have hl₂ne : l₂ ≠ [] := by
          intro hc
          rw [hc] at hLen
          simp at hLen
          omega
        have hsr : jsSpliceRemove1 s.blocks (i : Int) = l₁ ++ l₂ := by
          unfold jsSpliceRemove1
          rw [jsNormStart_ofNat (le_of_lt hilt), hdec, ← hlen₁]
          exact eraseAt_append_cons l₁ bid l₂
        have hsrLen : (jsSpliceRemove1 s.blocks (i : Int)).length
            = l₁.length + l₂.length := by
          rw [hsr]
          simp
        have hamem : jsAt (jsSpliceRemove1 s.blocks (i : Int)) ((i : Int) - 1)
            ∈ jsSpliceRemove1 s.blocks (i : Int) := by
          have hc : (i : Int) - 1 = ((i - 1 : Nat) : Int) := by omega
          rw [hc, jsAt_ofNat]
          refine getD_mem ?_
          rw [hsrLen]
          omega
        refine delete_core hwf' hd' hb ?_ ?_ ?_ ?_ hamem
        · rw [hsr, hdec]
          exact (List.sublist_cons_self bid l₂).append_left l₁
        · rw [hsr]
          intro hc
          rcases List.mem_append.mp hc with h' | h'
          · exact hnodec.1 h'
          · exact hnodec.2 h'
        · intro b hbm
          rw [hdec] at hbm
          rw [hsr]
          rcases List.mem_append.mp hbm with h' | h'
          · exact Or.inr (List.mem_append.mpr (Or.inl h'))
          · rcases List.mem_cons.mp h' with h'' | h''
            · exact Or.inl h''
            · exact Or.inr (List.mem_append.mpr (Or.inr h''))
        · rw [hsr]
          intro hc
          rcases List.append_eq_nil.mp hc with ⟨hc1, _⟩
          rw [hc1] at hlen₁
          simp only [List.length_nil] at hlen₁
          omega

theorem createActiveBlock_eq (s : BlockList) :
    createActiveBlock s = (s.nextId + 2,
      ⟨s.nextId, ⟨ContentClass.text, s.nextId + 1⟩, false⟩,
      { s with
        store := storeSet (storeSet ((s.nextId + 2,
            ⟨s.nextId, ⟨ContentClass.text, s.nextId + 1⟩, false⟩) :: s.store)
            s.activeId (setIsActive false)) (s.nextId + 2) (setIsActive true)
        activeId := s.nextId + 2
        domIndex := (s.nextId, s.nextId + 2) :: s.domIndex
        parentOf := (s.nextId + 1, s.nextId) :: s.parentOf
        nextId := s.nextId + 3 }) := rfl

theorem jsNormStart_le (len : Nat) (x : Int) : jsNormStart len x ≤ len := by
  unfold jsNormStart
  split
  · omega
  · omega

theorem mem_insertAt_of_mem {l : List Nat} {y : Nat} (i x : Nat)
    (h : y ∈ l) : y ∈ insertAt l i x := by
  induction l generalizing i with
  | nil => cases h
  | cons z zs ih =>
    cases i with
    | zero => exact List.mem_cons_of_mem _ h
    | succ j =>
      simp only [insertAt]
      rcases List.mem_cons.mp h with h' | h'
      · exact h' ▸ List.mem_cons_self _ _
      · exact List.mem_cons_of_mem _ (ih j h')

theorem insert_core {s : BlockList} {blocks' mc : List Nat} (hwf : WF s)
    (hb1 : (s.nextId + 2) ∈ blocks')
    (hsub : ∀ b ∈ blocks', b = s.nextId + 2 ∨ b ∈ s.blocks)
    (hkeep : ∀ b ∈ s.blocks, b ∈ blocks')
    (hnd' : blocks'.Nodup) :
    WF { s with
      store := storeSet (storeSet ((s.nextId + 2,
          ⟨s.nextId, ⟨ContentClass.text, s.nextId + 1⟩, false⟩) :: s.store)
          s.activeId (setIsActive false)) (s.nextId + 2) (setIsActive true)
      blocks := blocks'
      activeId := s.nextId + 2
      domIndex := (s.nextId, s.nextId + 2) :: s.domIndex
      parentOf := (s.nextId, mountId) :: (s.nextId + 1, s.nextId) :: s.parentOf
      mountChildren := mc
      nextId := s.nextId + 3 } := by
  obtain ⟨hne, hnd, ham, hsk, hpk, haf, hdi, hlb, hst, hfr⟩ := hwf
  obtain ⟨hn1, hsB, hdiB, hpoB⟩ := hfr
  have hblkB : ∀ b ∈ s.blocks, b < s.nextId := by
    intro b hb
    rcases OptP_iff.mp (hlb b hb) with ⟨db, hdb, _⟩
    exact (hsB _ (alookup_mem (show alookup s.store b = some db from hdb))).1
  have hdi2B : ∀ e ∈ s.domIndex, e.2 < s.nextId := by
    intro e he
    rcases OptP_iff.mp (hdi e he) with ⟨de, hde, _⟩
    exact (hsB _ (alookup_mem (show alookup s.store e.2 = some de from hde))).1
  have hactB : s.activeId < s.nextId := hblkB _ ham
  refine ⟨List.ne_nil_of_mem hb1, hnd', hb1, ?_, ?_, ?_, ?_, ?_, ?_, ?_⟩
  · show (List.map Prod.fst (storeSet (storeSet ((s.nextId + 2,
        ⟨s.nextId, ⟨ContentClass.text, s.nextId + 1⟩, false⟩) :: s.store)
        s.activeId (setIsActive false)) (s.nextId + 2) (setIsActive true))).Nodup
    rw [storeSet_keys, storeSet_keys, List.map_cons]
    refine List.nodup_cons.mpr ⟨?_, hsk⟩
    exact not_mem_keys_of_lt (fun e he => by have := (hsB e he).1; omega)
  · show (List.map Prod.fst ((s.nextId, mountId) ::
      (s.nextId + 1, s.nextId) :: s.parentOf)).Nodup
    rw [List.map_cons, List.map_cons]
    refine List.nodup_cons.mpr ⟨?_, List.nodup_cons.mpr ⟨?_, hpk⟩⟩
    · intro hc
      rcases List.mem_cons.mp hc with h' | h'
      · omega
      · rcases List.mem_map.mp h' with ⟨e, he, he1⟩
        have := (hpoB e he).2.1
        omega
    · exact not_mem_keys_of_lt (fun e he => by have := (hpoB e he).2.1; omega)
  · show ∀ p ∈ storeSet (storeSet ((s.nextId + 2,
        ⟨s.nextId, ⟨ContentClass.text, s.nextId + 1⟩, false⟩) :: s.store)
        s.activeId (setIsActive false)) (s.nextId + 2) (setIsActive true),
      p.2.isActive = decide (p.1 = s.nextId + 2)
    refine activeFlags_after _ _ _ ?_
    intro p hp
    rcases List.mem_cons.mp hp with h | h
    · rw [h]
      exact (decide_eq_false (by omega)).symm
    · exact haf p h
  · show ∀ e ∈ (s.nextId, s.nextId + 2) :: s.domIndex,
      OptP (alookup (storeSet (storeSet ((s.nextId + 2,
        ⟨s.nextId, ⟨ContentClass.text, s.nextId + 1⟩, false⟩) :: s.store)
        s.activeId (setIsActive false)) (s.nextId + 2) (setIsActive true)) e.2)
      (fun db => e.1 = db.surface)
    intro e he
    rcases List.mem_cons.mp he with h | h
    · rw [h]
      have hq : alookup (storeSet (storeSet ((s.nextId + 2,
          ⟨s.nextId, ⟨ContentClass.text, s.nextId + 1⟩, false⟩) :: s.store)
          s.activeId (setIsActive false)) (s.nextId + 2) (setIsActive true))
          (s.nextId + 2)
          = some (setIsActive true (if (s.nextId + 2 : Nat) = s.activeId
              then setIsActive false
                ⟨s.nextId, ⟨ContentClass.text, s.nextId + 1⟩, false⟩
              else ⟨s.nextId, ⟨ContentClass.text, s.nextId + 1⟩, false⟩)) := by
        rw [alookup_storeSet, alookup_storeSet, alookup_cons, if_pos rfl]
        simp
      rw [OptP_iff]
      refine ⟨_, hq, ?_⟩
      dsimp only
      split <;> rfl
    · have hne2 : e.2 ≠ s.nextId + 2 := by have := hdi2B e h; omega
      have hbase : OptP (alookup ((s.nextId + 2,
          ⟨s.nextId, ⟨ContentClass.text, s.nextId + 1⟩, false⟩) :: s.store) e.2)
          (fun db => e.1 = db.surface) := by
        rw [alookup_cons, if_neg (by omega)]
        exact hdi e h
      exact optp_alookup_storeSet (fun d' h' => h')
        (optp_alookup_storeSet (fun d' h' => h') hbase)
  · show ∀ blk ∈ blocks', OptP (alookup (storeSet (storeSet ((s.nextId + 2,
        ⟨s.nextId, ⟨ContentClass.text, s.nextId + 1⟩, false⟩) :: s.store)
        s.activeId (setIsActive false)) (s.nextId + 2) (setIsActive true)) blk)
      (fun db =>
        alookup ((s.nextId, s.nextId + 2) :: s.domIndex) db.surface = some blk ∧
        alookup ((s.nextId, mountId) :: (s.nextId + 1, s.nextId) :: s.parentOf)
          db.surface = some mountId ∧
        alookup ((s.nextId, mountId) :: (s.nextId + 1, s.nextId) :: s.parentOf)
          db.child.surface = some db.surface)
    intro blk hblk
    rcases hsub blk hblk with hnew | hold
    · subst hnew
      have hq : alookup (storeSet (storeSet ((s.nextId + 2,
          ⟨s.nextId, ⟨ContentClass.text, s.nextId + 1⟩, false⟩) :: s.store)
          s.activeId (setIsActive false)) (s.nextId + 2) (setIsActive true))
          (s.nextId + 2)
          = some (setIsActive true (if (s.nextId + 2 : Nat) = s.activeId
              then setIsActive false
                ⟨s.nextId, ⟨ContentClass.text, s.nextId + 1⟩, false⟩
              else ⟨s.nextId, ⟨ContentClass.text, s.nextId + 1⟩, false⟩)) := by
        rw [alookup_storeSet, alookup_storeSet, alookup_cons, if_pos rfl]
        simp
      rw [OptP_iff]
      refine ⟨_, hq, ?_, ?_, ?_⟩
      · have hsurf : (setIsActive true (if (s.nextId + 2 : Nat) = s.activeId
            then setIsActive false
              ⟨s.nextId, ⟨ContentClass.text, s.nextId + 1⟩, false⟩
            else ⟨s.nextId, ⟨ContentClass.text, s.nextId + 1⟩, false⟩)).surface
            = s.nextId := by
          split <;> rfl
        rw [hsurf, alookup_cons, if_pos rfl]
      · have hsurf : (setIsActive true (if (s.nextId + 2 : Nat) = s.activeId
            then setIsActive false
              ⟨s.nextId, ⟨ContentClass.text, s.nextId + 1⟩, false⟩
            else ⟨s.nextId, ⟨ContentClass.text, s.nextId + 1⟩, false⟩)).surface
            = s.nextId := by
          split <;> rfl
        rw [hsurf, alookup_cons, if_pos rfl]
      · have hcsurf : (setIsActive true (if (s.nextId + 2 : Nat) = s.activeId
            then setIsActive false
              ⟨s.nextId, ⟨ContentClass.text, s.nextId + 1⟩, false⟩
            else ⟨s.nextId, ⟨ContentClass.text, s.nextId + 1⟩, false⟩)).child.surface
            = s.nextId + 1 := by
          split <;> rfl
        have hsurf : (setIsActive true (if (s.nextId + 2 : Nat) = s.activeId
            then setIsActive false
              ⟨s.nextId, ⟨ContentClass.text, s.nextId + 1⟩, false⟩
            else ⟨s.nextId, ⟨ContentClass.text, s.nextId + 1⟩, false⟩)).surface
            = s.nextId := by
          split <;> rfl
        rw [hcsurf, hsurf, alookup_cons, if_neg (by omega), alookup_cons,
          if_pos rfl]
    · have hbne : blk ≠ s.nextId + 2 := by have := hblkB blk hold; omega
      rcases OptP_iff.mp (hlb blk hold) with ⟨db, hdb, hb1', hb2', hb3'⟩
      have hdb' : alookup s.store blk = some db := hdb
      have hdbB : blk < s.nextId ∧ 1 ≤ db.surface ∧ db.surface < s.nextId ∧
          1 ≤ db.child.surface ∧ db.child.surface < s.nextId :=
        hsB _ (alookup_mem hdb')
      have hg1' : alookup s.domIndex db.surface = some blk := hb1'
      have hg2' : alookup s.parentOf db.surface = some mountId := hb2'
      have hg3' : alookup s.parentOf db.child.surface = some db.surface := hb3'
      have hq : alookup (storeSet (storeSet ((s.nextId + 2,
          ⟨s.nextId, ⟨ContentClass.text, s.nextId + 1⟩, false⟩) :: s.store)
          s.activeId (setIsActive false)) (s.nextId + 2) (setIsActive true)) blk
          = some (if blk = s.nextId + 2
              then setIsActive true (if blk = s.activeId
                then setIsActive false db else db)
              else (if blk = s.activeId then setIsActive false db else db)) := by
        rw [alookup_storeSet, alookup_storeSet, alookup_cons, if_neg (by omega),
          hdb']
        rfl
      rw [OptP_iff]
      refine ⟨_, hq, ?_, ?_, ?_⟩
      · rw [flagVal_surface, alookup_cons, if_neg (by omega)]
        exact hg1'
      · rw [flagVal_surface, alookup_cons, if_neg (by omega), alookup_cons,
          if_neg (by omega)]
        exact hg2'
      · rw [flagVal_child, flagVal_surface, alookup_cons, if_neg (by omega),
          alookup_cons, if_neg (by omega)]
        exact hg3'
  · show ∀ e ∈ (s.nextId, s.nextId + 2) :: s.domIndex, e.2 ∉ blocks' →
      alookup ((s.nextId, mountId) :: (s.nextId + 1, s.nextId) :: s.parentOf)
        e.1 = none
    intro e he hnb2
    rcases List.mem_cons.mp he with h | h
    · rw [h] at hnb2
      exact absurd hb1 hnb2
    · have hnotold : e.2 ∉ s.blocks := fun hc => hnb2 (hkeep _ hc)
      have h9 : alookup s.parentOf e.1 = none := hst e h hnotold
      have heB := hdiB e h
      rw [alookup_cons, if_neg (by omega), alookup_cons, if_neg (by omega)]
      exact h9
  · refine ⟨?_, ?_, ?_, ?_⟩
    · show 1 ≤ s.nextId + 3
      omega
    · show ∀ p ∈ storeSet (storeSet ((s.nextId + 2,
        ⟨s.nextId, ⟨ContentClass.text, s.nextId + 1⟩, false⟩) :: s.store)
        s.activeId (setIsActive false)) (s.nextId + 2) (setIsActive true),
        p.1 < s.nextId + 3 ∧ 1 ≤ p.2.surface ∧ p.2.surface < s.nextId + 3 ∧
        1 ≤ p.2.child.surface ∧ p.2.child.surface < s.nextId + 3
      refine fresh_store_bounds (fresh_store_bounds ?_ s.activeId
        (setIsActive false) (fun d => ⟨rfl, rfl⟩)) (s.nextId + 2)
        (setIsActive true) (fun d => ⟨rfl, rfl⟩)
      intro p hp
      rcases List.mem_cons.mp hp with h | h
      · rw [h]
        dsimp only
        exact ⟨by omega, by omega, by omega, by omega, by omega⟩
      · have := hsB p h
        exact ⟨by omega, by omega, by omega, by omega, by omega⟩
    · show ∀ e ∈ (s.nextId, s.nextId + 2) :: s.domIndex,
        1 ≤ e.1 ∧ e.1 < s.nextId + 3
      intro e he
      rcases List.mem_cons.mp he with h | h
      · rw [h]
        dsimp only
        exact ⟨by omega, by omega⟩
      · have := hdiB e h
        exact ⟨by omega, by omega⟩
    · show ∀ e ∈ (s.nextId, mountId) :: (s.nextId + 1, s.nextId) :: s.parentOf,
        1 ≤ e.1 ∧ e.1 < s.nextId + 3 ∧ e.2 < s.nextId + 3
      intro e he
      rcases List.mem_cons.mp he with h | h
      · rw [h]
        dsimp only
        refine ⟨by omega, ?_, ?_⟩
        · omega
        · show mountId < s.nextId + 3
          simp only [mountId]
          omega
      · rcases List.mem_cons.mp h with h' | h'
        · rw [h']
          dsimp only
          exact ⟨by omega, by omega, by omega⟩
        · have := hpoB e h'
          exact ⟨by omega, by omega, by omega⟩

theorem wf_addBlockBelowCurrent {s : BlockList} (hwf : WF s) :
    WF (addBlockBelowCurrent s) := by
  obtain ⟨hne, hnd, ham, hsk, hpk, haf, hdi, hlb, hst, hfr⟩ := hwf
  have hwf' : WF s := ⟨hne, hnd, ham, hsk, hpk, haf, hdi, hlb, hst, hfr⟩
  obtain ⟨hn1, hsB, hdiB, hpoB⟩ := hfr
  have hblkB : ∀ b ∈ s.blocks, b < s.nextId := by
    intro b hb
    rcases OptP_iff.mp (hlb b hb) with ⟨db, hdb, _⟩
    exact (hsB _ (alookup_mem (show alookup s.store b = some db from hdb))).1
  have hfresh : s.nextId + 2 ∉ s.blocks := by
    intro hc
    have := hblkB _ hc
    omega
  rcases firstIdx_of_mem ham with ⟨i, hi⟩
  have hilt : i < s.blocks.length := firstIdx_lt_length hi
  have hndApp : (s.blocks ++ [s.nextId + 2]).Nodup := by
    rw [List.nodup_append]
    refine ⟨hnd, List.nodup_singleton _, ?_⟩
    intro a haa hab
    simp only [List.mem_singleton] at hab
    subst hab
    exact hfresh haa
  have hb1App : (s.nextId + 2) ∈ s.blocks ++ [s.nextId + 2] :=
    List.mem_append.mpr (Or.inr (List.mem_singleton.mpr rfl))
  have hsubApp : ∀ b ∈ s.blocks ++ [s.nextId + 2],
      b = s.nextId + 2 ∨ b ∈ s.blocks := by
    intro b hb
    rcases List.mem_append.mp hb with h' | h'
    · exact Or.inr h'
    · exact Or.inl (List.mem_singleton.mp h')
  have hkeepApp : ∀ b ∈ s.blocks, b ∈ s.blocks ++ [s.nextId + 2] :=
    fun b hb => List.mem_append.mpr (Or.inl hb)
  have hcast : (i : Int) + 1 = ((i + 1 : Nat) : Int) := by omega
  have hsi : jsSpliceInsert s.blocks ((i : Int) + 1) (s.nextId + 2)
      = insertAt s.blocks (i + 1) (s.nextId + 2) := by
    rw [hcast]
    unfold jsSpliceInsert
    rw [jsNormStart_ofNat (by omega)]
  have hb1Ins : (s.nextId + 2) ∈ jsSpliceInsert s.blocks ((i : Int) + 1)
      (s.nextId + 2) := by
    rw [hsi]
    exact mem_insertAt_self _ (by omega)
  have hsubIns : ∀ b ∈ jsSpliceInsert s.blocks ((i : Int) + 1) (s.nextId + 2),
      b = s.nextId + 2 ∨ b ∈ s.blocks := by
    intro b hb
    rw [hsi] at hb
    exact mem_of_mem_insertAt hb
  have hkeepIns : ∀ b ∈ s.blocks,
      b ∈ jsSpliceInsert s.blocks ((i : Int) + 1) (s.nextId + 2) := by
    intro b hb
    rw [hsi]
    exact mem_insertAt_of_mem _ _ hb
  have hndIns : (jsSpliceInsert s.blocks ((i : Int) + 1) (s.nextId + 2)).Nodup := by
    rw [hsi]
    exact nodup_insertAt hfresh hnd
  unfold addBlockBelowCurrent
  rw [createActiveBlock_eq]
  dsimp only
  rw [jsIndexOf_eq hi]
  by_cases hlast : s.blocks.getLast? = some s.activeId
  · rw [if_pos hlast]
    dsimp only [appendToMount]
    by_cases hidx : (i : Int) = (s.blocks.length : Int) - 1
    · rw [if_pos hidx]
      exact insert_core hwf' hb1App hsubApp hkeepApp hndApp
    · rw [if_neg hidx]
      exact insert_core hwf' hb1Ins hsubIns hkeepIns hndIns
  · rw [if_neg hlast]
    dsimp only [insertBeforeInMount]
    by_cases hidx : (i : Int) = (s.blocks.length : Int) - 1
    · rw [if_pos hidx]
      exact insert_core hwf' hb1App hsubApp hkeepApp hndApp
    · rw [if_neg hidx]
      exact insert_core hwf' hb1Ins hsubIns hkeepIns hndIns

theorem wf_backspace {s : BlockList} {t : Nat} {txt : String} (hwf : WF s)
    (hat : Attached s t) : WF (backspace s t txt) := by
  unfold backspace
  cases hres : findNearestBlockOfDOMNode s t with
  | none => exact hwf
  | some bid =>
    have hbm : bid ∈ s.blocks := resolve_mem_blocks hwf hat hres
    dsimp only
    by_cases htxt : txt ≠ ""
    · rw [if_pos htxt]
      exact hwf
    · rw [if_neg htxt]
      rcases OptP_iff.mp ((hwf.2.2.2.2.2.2.2.1) bid hbm) with ⟨d, hd, _⟩
      have hred : (match storeGet s bid with
          | none => s
          | some d =>
            match contentType d.child.variant with
            | NodeType.heading => transitionContent s bid ContentClass.text
            | NodeType.text => deleteBlockIfNotLast s bid
            | NodeType.block => s)
          = (match contentType d.child.variant with
            | NodeType.heading => transitionContent s bid ContentClass.text
            | NodeType.text => deleteBlockIfNotLast s bid
            | NodeType.block => s) := by
        rw [hd]
      rw [hred]
      cases hv : d.child.variant
      · dsimp only [contentType]
        exact wf_deleteBlockIfNotLast hwf hbm
      · dsimp only [contentType]
        exact wf_transitionContent hwf hbm
      · dsimp only [contentType]
        exact wf_transitionContent hwf hbm
      · dsimp only [contentType]
        exact wf_transitionContent hwf hbm

theorem wf_handleMutation {s : BlockList} {t : Nat} {txt : String} (hwf : WF s)
    (hat : Attached s t) : WF (handleMutation s t txt) := by
  unfold handleMutation
  cases hres : findNearestBlockOfDOMNode s t with
  | none => exact hwf
  | some bid =>
    have hbm : bid ∈ s.blocks := resolve_mem_blocks hwf hat hres
    dsimp only
    by_cases h1 : txt = "# "
    · rw [if_pos h1]
      exact wf_transitionContent hwf hbm
    · rw [if_neg h1]
      by_cases h2 : txt = "## "
      · rw [if_pos h2]
        exact wf_transitionContent hwf hbm
      · rw [if_neg h2]
        by_cases h3 : txt = "### "
        · rw [if_pos h3]
          exact wf_transitionContent hwf hbm
        · rw [if_neg h3]
          exact hwf

theorem wf_init : WF BlockList.init := by decide

theorem wf_step {s s' : BlockList} (hwf : WF s) (hstep : Step s s') : WF s' := by
  cases hstep with
  | add => exact wf_addBlockBelowCurrent hwf
  | up => exact wf_arrowUp hwf
  | down => exact wf_arrowDown hwf
  | back t txt h => exact wf_backspace hwf h
  | mutation t txt h => exact wf_handleMutation hwf h
  | click b h => exact wf_setActiveBlock hwf h

theorem reachable_wf {s : BlockList} (h : Reachable s) : WF s := by
  induction h with
  | init => exact wf_init
  | step _ hstep ih => exact wf_step ih hstep

theorem walkUp_lookup {s : BlockList} :
    ∀ fuel t bid, walkUp s fuel t = some bid →
      ∃ p, lookupIndex s p = some bid := by
  intro fuel
  induction fuel with
  | zero =>
    intro t bid hw
    simp [walkUp] at hw
  | succ n ih =>
    intro t bid hw
    have hw2 : (match parentNode s t with
        | none => none
        | some q =>
          match lookupIndex s q with
          | some b => some b
          | none => walkUp s n q) = some bid := hw
    cases hp : parentNode s t with
    | none =>
      rw [hp] at hw2
      cases hw2
    | some p =>
      rw [hp] at hw2
      have hw3 : (match lookupIndex s p with
          | some b => some b
          | none => walkUp s n p) = some bid := hw2
      cases hlk : lookupIndex s p with
      | some b =>
        rw [hlk] at hw3
        have hb : some b = some bid := hw3
        cases hb
        exact ⟨p, hlk⟩
      | none =>
        rw [hlk] at hw3
        exact ih p bid hw3

theorem resolve_stored {s : BlockList} (hwf : WF s) {t bid : Nat}
    (hres : findNearestBlockOfDOMNode s t = some bid) :
    ∃ d, storeGet s bid = some d := by
  obtain ⟨_, _, _, _, _, _, hdi, _, _, _⟩ := hwf
  have hkey : ∃ p, lookupIndex s p = some bid := by
    unfold findNearestBlockOfDOMNode at hres
    cases hlk : lookupIndex s t with
    | some b =>
      rw [hlk] at hres
      cases hres
      exact ⟨t, hlk⟩
    | none =>
      rw [hlk] at hres
      exact walkUp_lookup _ t bid hres
  rcases hkey with ⟨p, hp⟩
  have hmem : (p, bid) ∈ s.domIndex := alookup_mem hp
  rcases OptP_iff.mp (hdi _ hmem) with ⟨d, hd, _⟩
  exact ⟨d, hd⟩

theorem storeGet_transitionContent_ne {s : BlockList} {rbid : Nat}
    {v : ContentClass} {bid : Nat} (h : bid ≠ rbid) :
    storeGet (transitionContent s rbid v) bid = storeGet s bid := by
  have h1 : transitionContent s rbid v
      = replaceBlockChild { s with nextId := s.nextId + 1 } rbid
        ⟨v, s.nextId⟩ := rfl
  rw [h1]
  cases hg : storeGet { s with nextId := s.nextId + 1 } rbid with
  | none =>
    have h2 : replaceBlockChild { s with nextId := s.nextId + 1 } rbid
        ⟨v, s.nextId⟩ = { s with nextId := s.nextId + 1 } := by
      unfold replaceBlockChild
      rw [hg]
    rw [h2]
    rfl
  | some d =>
    rw [replaceBlockChild_eq ⟨v, s.nextId⟩ hg]
    show alookup (storeSet s.store rbid
      (fun d' => { d' with child := ⟨v, s.nextId⟩ })) bid = alookup s.store bid
    rw [alookup_storeSet_ne _ _ h]

theorem storeGet_transitionContent_self {s : BlockList} {rbid : Nat}
    (v : ContentClass) {d : BlockData} (hd : storeGet s rbid = some d) :
    storeGet (transitionContent s rbid v) rbid
      = some { d with child := ⟨v, s.nextId⟩ } := by
  rw [transitionContent_eq v hd]
  show alookup (storeSet s.store rbid
      (fun d' => { d' with child := ⟨v, s.nextId⟩ })) rbid
    = some { d with child := ⟨v, s.nextId⟩ }
  rw [alookup_storeSet_self, show alookup s.store rbid = some d from hd]
  rfl

theorem addBlockBelowCurrent_store (s : BlockList) :
    (addBlockBelowCurrent s).store
      = storeSet (storeSet ((s.nextId + 2,
          ⟨s.nextId, ⟨ContentClass.text, s.nextId + 1⟩, false⟩) :: s.store)
          s.activeId (setIsActive false)) (s.nextId + 2) (setIsActive true) := by
  unfold addBlockBelowCurrent
  rw [createActiveBlock_eq]
  dsimp only
  split <;> split <;> rfl

theorem addBlockBelowCurrent_activeId (s : BlockList) :
    (addBlockBelowCurrent s).activeId = s.nextId + 2 := by
  unfold addBlockBelowCurrent
  rw [createActiveBlock_eq]
  dsimp only
  split <;> split <;> rfl

theorem addBlockBelowCurrent_blocks {s : BlockList} {i : Nat}
    (hi : firstIdx s.activeId s.blocks = some i) :
    (addBlockBelowCurrent s).blocks
      = insertAt s.blocks (i + 1) (s.nextId + 2) := by
  have hilt : i < s.blocks.length := firstIdx_lt_length hi
  have hcast : (i : Int) + 1 = ((i + 1 : Nat) : Int) := by omega
  have hsi : jsSpliceInsert s.blocks ((i : Int) + 1) (s.nextId + 2)
      = insertAt s.blocks (i + 1) (s.nextId + 2) := by
    rw [hcast]
    unfold jsSpliceInsert
    rw [jsNormStart_ofNat (by omega)]
  unfold addBlockBelowCurrent
  rw [createActiveBlock_eq]
  dsimp only
  rw [jsIndexOf_eq hi]
  by_cases hlast : s.blocks.getLast? = some s.activeId
  · rw [if_pos hlast]
    dsimp only [appendToMount]
    by_cases hidx : (i : Int) = (s.blocks.length : Int) - 1
    · rw [if_pos hidx]
      dsimp only
      have hieq : i + 1 = s.blocks.length := by omega
      rw [hieq, insertAt_length_self]
    · rw [if_neg hidx]
      dsimp only
      exact hsi
  · rw [if_neg hlast]
    dsimp only [insertBeforeInMount]
    by_cases hidx : (i : Int) = (s.blocks.length : Int) - 1
    · rw [if_pos hidx]
      dsimp only
      have hieq : i + 1 = s.blocks.length := by omega
      rw [hieq, insertAt_length_self]
    · rw [if_neg hidx]
      dsimp only
      exact hsi

theorem storeGet_setActiveBlock_child (s : BlockList) (b bid : Nat) :
    (storeGet (setActiveBlock s b) bid).map (fun d => d.child)
      = (storeGet s bid).map (fun d => d.child) := by
  rw [storeGet_setActiveBlock]
  cases storeGet s bid with
  | none => rfl
  | some d =>
    simp only [Option.map_some']
    split
    · rfl
    · split <;> rfl

theorem storeGet_addBlockBelowCurrent_child (s : BlockList) (bid : Nat)
    (hlt : bid < s.nextId) :
    (storeGet (addBlockBelowCurrent s) bid).map (fun d => d.child)
      = (storeGet s bid).map (fun d => d.child) := by
  unfold storeGet
  rw [addBlockBelowCurrent_store]
  rw [alookup_storeSet, alookup_storeSet, alookup_cons, if_neg (by omega)]
  cases alookup s.store bid with
  | none => rfl
  | some d =>
    simp only [Option.map_some']
    split
    · split <;> rfl
    · split <;> rfl

theorem storeGet_arrowUp_child (s : BlockList) (bid : Nat) :
    (storeGet (arrowUp s) bid).map (fun d => d.child)
      = (storeGet s bid).map (fun d => d.child) := by
  unfold arrowUp
  dsimp only
  split
  · exact storeGet_setActiveBlock_child _ _ _
  · rfl

theorem storeGet_arrowDown_child (s : BlockList) (bid : Nat) :
    (storeGet (arrowDown s) bid).map (fun d => d.child)
      = (storeGet s bid).map (fun d => d.child) := by
  unfold arrowDown
  dsimp only
  split
  · exact storeGet_setActiveBlock_child _ _ _
  · rfl

theorem mutation_keeps_heading (s : BlockList) (t : Nat) (txt : String)
    (bid : Nat)
    (h : (storeGet s bid).map (fun d => contentType d.child.variant)
      = some NodeType.heading) :
    (storeGet (handleMutation s t txt) bid).map
      (fun d => contentType d.child.variant) = some NodeType.heading := by
  unfold handleMutation
  cases hres : findNearestBlockOfDOMNode s t with
  | none => exact h
  | some rbid =>
    dsimp only
    have key : ∀ v : ContentClass, contentType v = NodeType.heading →
        (storeGet (transitionContent s rbid v) bid).map
          (fun d => contentType d.child.variant) = some NodeType.heading := by
      intro v hv
      by_cases hb : bid = rbid
      · subst hb
        rcases Option.map_eq_some'.mp h with ⟨d, hd, _⟩
        rw [storeGet_transitionContent_self v hd]
        simpa using hv
      · rw [storeGet_transitionContent_ne hb]
        exact h
    by_cases h1 : txt = "# "
    · rw [if_pos h1]
      exact key _ rfl
    · rw [if_neg h1]
      by_cases h2 : txt = "## "
      · rw [if_pos h2]
        exact key _ rfl
      · rw [if_neg h2]
        by_cases h3 : txt = "### "
        · rw [if_pos h3]
          exact key _ rfl
        · rw [if_neg h3]
          exact h

/-- Whether the block `bid`'s div currently carries the active CSS class. -/
def blockIsActive (s : BlockList) (bid : Nat) : Bool :=
  match storeGet s bid with
  | some d => d.isActive
  | none => false

theorem countP_eq_one_of_unique {l : List Nat} {p : Nat → Bool} {a : Nat}
    (hnd : l.Nodup) (ha : a ∈ l) (hp : ∀ x ∈ l, p x = true ↔ x = a) :
    l.countP p = 1 := by
  induction l with
  | nil => cases ha
  | cons y ys ih =>
    rcases List.nodup_cons.mp hnd with ⟨hy, hys⟩
    by_cases hya : y = a
    · subst hya
      rw [List.countP_cons_of_pos _ _ ((hp y (List.mem_cons_self _ _)).mpr rfl)]
      have h0 : ys.countP p = 0 := by
        rw [List.countP_eq_zero]
        intro x hx hpx
        exact hy (((hp x (List.mem_cons_of_mem _ hx)).mp hpx) ▸ hx)
      omega
    · have hpy : ¬ p y = true := fun hpy => hya ((hp y (List.mem_cons_self _ _)).mp hpy)
      rw [List.countP_cons_of_neg _ _ hpy]
      have hays : a ∈ ys := by
        rcases List.mem_cons.mp ha with h' | h'
        · exact absurd h'.symm hya
        · exact h'
      exact ih hys hays (fun x hx => hp x (List.mem_cons_of_mem _ hx))

/-- C1: in every reachable state of the block list — constructed with one
block (block-list.ts:21-29) and mutated by any sequence of
`addBlockBelowCurrent`, `arrowUp`, `arrowDown`, `backspace`,
`handleMutation` and click-driven `setActiveBlock` operations — the `blocks`
sequence is non-empty: `blocks.length ≥ 1` always. -/
theorem C1_blocks_nonempty (s : BlockList) (h : Reachable s) :
    1 ≤ s.blocks.length := by
  have hne := (reachable_wf h).1
  cases hbl : s.blocks with
  | nil => exact absurd hbl hne
  | cons a l => simp

theorem C1_witness :
    Reachable (addBlockBelowCurrent BlockList.init) ∧
    1 ≤ (addBlockBelowCurrent BlockList.init).blocks.length :=
  ⟨Reachable.step Reachable.init (Step.add _),
   C1_blocks_nonempty _ (Reachable.step Reachable.init (Step.add _))⟩

/-- C2: in every reachable state of the block list, exactly one element of
the `blocks` sequence is marked active (its div carries the
`eelBlock--active` class); this holds after every operation completes. -/
theorem C2_unique_active (s : BlockList) (h : Reachable s) :
    s.blocks.countP (fun bid => blockIsActive s bid) = 1 := by
  obtain ⟨hne, hnd, ham, hsk, hpk, haf, hdi, hlb, hst, hfr⟩ := reachable_wf h
  refine countP_eq_one_of_unique hnd ham ?_
  intro bid hb
  rcases OptP_iff.mp (hlb bid hb) with ⟨d, hd, _⟩
  have hd' : alookup s.store bid = some d := hd
  have hflag : d.isActive = decide (bid = s.activeId) := haf _ (alookup_mem hd')
  unfold blockIsActive
  rw [hd]
  show d.isActive = true ↔ bid = s.activeId
  rw [hflag]
  simp

theorem C2_witness :
    Reachable (addBlockBelowCurrent BlockList.init) ∧
    (addBlockBelowCurrent BlockList.init).blocks.countP
      (fun bid => blockIsActive (addBlockBelowCurrent BlockList.init) bid) = 1 :=
  ⟨Reachable.step Reachable.init (Step.add _),
   C2_unique_active _ (Reachable.step Reachable.init (Step.add _))⟩

theorem jsAt_zero_headD (l : List Nat) : jsAt l 0 = l.headD 0 := by
  cases l <;> rfl

theorem length_eraseAt {l : List Nat} {i : Nat} (h : i < l.length) :
    (eraseAt l i).length = l.length - 1 := by
  induction l generalizing i with
  | nil => cases h
  | cons a l ih =>
    cases i with
    | zero => simp [eraseAt]
    | succ j =>
      simp only [eraseAt, List.length_cons]
      rw [ih (by simpa using h)]
      have h1 : j < l.length := by simpa using h
      omega

/-- C3: for a block `b` of the list, `deleteBlockIfNotLast` is a no-op when
`blocks.length ≤ 1`; otherwise it removes exactly `b` (the element at `b`'s
index `i`), and afterwards the active block is the new first block when `b`
was at index 0, and the block at `index - 1` (`b`'s predecessor) when `b`
was at any other index, including the last. -/
theorem C3_delete_spec (s : BlockList) (b i : Nat) (hwf : WF s)
    (hb : b ∈ s.blocks) (hi : firstIdx b s.blocks = some i) :
    (s.blocks.length ≤ 1 → deleteBlockIfNotLast s b = s) ∧
    (2 ≤ s.blocks.length →
      (deleteBlockIfNotLast s b).blocks = eraseAt s.blocks i ∧
      b ∉ (deleteBlockIfNotLast s b).blocks ∧
      (deleteBlockIfNotLast s b).blocks.length = s.blocks.length - 1 ∧
      (i = 0 → (deleteBlockIfNotLast s b).activeId
        = (deleteBlockIfNotLast s b).blocks.headD 0) ∧
      (1 ≤ i → (deleteBlockIfNotLast s b).activeId
        = s.blocks.getD (i - 1) 0)) := by
  obtain ⟨hne, hnd, ham, hsk, hpk, haf, hdi, hlb, hst, hfr⟩ := hwf
  have hilt : i < s.blocks.length := firstIdx_lt_length hi
  rcases OptP_iff.mp (hlb b hb) with ⟨d, hd, _, _, _⟩
  have hbs : blockSurfaceOf s b = d.surface := by
    unfold blockSurfaceOf
    rw [hd]
  rcases firstIdx_decomp hi with ⟨l₁, l₂, hdec, hlen₁⟩
  have hLen : s.blocks.length = l₁.length + 1 + l₂.length := by
    rw [hdec]
    simp only [List.length_append, List.length_cons]
    omega
  have hnodec : b ∉ l₁ ∧ b ∉ l₂ := nodup_decomp (hdec ▸ hnd)
  have herase : eraseAt s.blocks i = l₁ ++ l₂ := by
    rw [hdec, ← hlen₁]
    exact eraseAt_append_cons l₁ b l₂
  have hbnotin : b ∉ eraseAt s.blocks i := by
    rw [herase]
    intro hc
    rcases List.mem_append.mp hc with h' | h'
    · exact hnodec.1 h'
    · exact hnodec.2 h'
  constructor
  · intro hle
    unfold deleteBlockIfNotLast
    rw [if_pos hle]
  · intro hge
    have hlen : ¬ s.blocks.length ≤ 1 := by omega
    have hkey : (deleteBlockIfNotLast s b).blocks = eraseAt s.blocks i ∧
        ((i = 0 → (deleteBlockIfNotLast s b).activeId
          = (deleteBlockIfNotLast s b).blocks.headD 0) ∧
        (1 ≤ i → (deleteBlockIfNotLast s b).activeId
          = s.blocks.getD (i - 1) 0)) := by
      unfold deleteBlockIfNotLast
      rw [if_neg hlen]
      simp only [jsIndexOf_eq hi, hbs, domRemove_blocks]
      by_cases hi0 : (i : Int) = 0
      · rw [if_pos hi0]
        have hieq : i = 0 := by omega
        have hl₁nil : l₁ = [] := List.length_eq_zero.mp (by omega)
        have hdec0 : s.blocks = b :: l₂ := by
          rw [hdec, hl₁nil]
          rfl
        refine ⟨?_, ?_, ?_⟩
        · show s.blocks.tail = eraseAt s.blocks i
          rw [herase, hdec0, hl₁nil]
          rfl
        · intro _
          show jsAt s.blocks.tail 0 = s.blocks.tail.headD 0
          exact jsAt_zero_headD _
        · intro h1
          omega
      · rw [if_neg hi0]
        have hi1 : 1 ≤ i := by omega
        by_cases hiL : (i : Int) = (s.blocks.length : Int) - 1
        · rw [if_pos hiL]
          have hl₂nil : l₂ = [] := List.length_eq_zero.mp (by omega)
          have hdecL : s.blocks = l₁ ++ [b] := by
            rw [hdec, hl₂nil]
          have hdl : s.blocks.dropLast = l₁ := by
            rw [hdecL]
            simp
          refine ⟨?_, ?_, ?_⟩
          · show s.blocks.dropLast = eraseAt s.blocks i
            rw [herase, hdl, hl₂nil]
            simp
          · intro h0
            omega
          · intro _
            show jsAt s.blocks.dropLast ((i : Int) - 1) = s.blocks.getD (i - 1) 0
            have hc : (i : Int) - 1 = ((i - 1 : Nat) : Int) := by omega
            rw [hc, jsAt_ofNat, hdl, hdecL]
            rw [List.getD_append _ _ _ _ (by omega)]
        · rw [if_neg hiL]
          have hsr : jsSpliceRemove1 s.blocks (i : Int) = l₁ ++ l₂ := by
            unfold jsSpliceRemove1
            rw [jsNormStart_ofNat (le_of_lt hilt), hdec, ← hlen₁]
            exact eraseAt_append_cons l₁ b l₂
          refine ⟨?_, ?_, ?_⟩
          · show jsSpliceRemove1 s.blocks (i : Int) = eraseAt s.blocks i
            rw [hsr, herase]
          · intro h0
            omega
          · intro _
            show jsAt (jsSpliceRemove1 s.blocks (i : Int)) ((i : Int) - 1)
              = s.blocks.getD (i - 1) 0
            have hc : (i : Int) - 1 = ((i - 1 : Nat) : Int) := by omega
            rw [hc, jsAt_ofNat, hsr, hdec]
            rw [List.getD_append _ _ _ _ (by omega),
              List.getD_append _ _ _ _ (by omega)]
    refine ⟨hkey.1, ?_, ?_, hkey.2.1, hkey.2.2⟩
    · rw [hkey.1]
      exact hbnotin
    · rw [hkey.1]
      exact length_eraseAt hilt

theorem C3_witness :
    (deleteBlockIfNotLast (addBlockBelowCurrent BlockList.init) 6).blocks
      = eraseAt (addBlockBelowCurrent BlockList.init).blocks 1 ∧
    (deleteBlockIfNotLast (addBlockBelowCurrent BlockList.init) 6).activeId
      = (addBlockBelowCurrent BlockList.init).blocks.getD 0 0 :=
  ⟨((C3_delete_spec _ 6 1 (by decide) (by decide) (by decide)).2 (by decide)).1,
   (((C3_delete_spec _ 6 1 (by decide) (by decide) (by decide)).2
      (by decide)).2.2.2.2) (by decide)⟩

/-- C4: `backspace` is a no-op unless the resolved target's text content is
exactly the empty string; on an empty target, a Heading child is replaced by
a fresh `Text` node (the block is not removed) and a `Text` child causes the
block to be deleted via `deleteBlockIfNotLast`; when no owning block
resolves, the state is unchanged. -/
theorem C4_backspace_spec (s : BlockList) (t : Nat) (txt : String)
    (hwf : WF s) :
    (findNearestBlockOfDOMNode s t = none → backspace s t txt = s) ∧
    (txt ≠ "" → backspace s t txt = s) ∧
    (∀ bid, findNearestBlockOfDOMNode s t = some bid → txt = "" →
      ∃ d, storeGet s bid = some d ∧
        (contentType d.child.variant = NodeType.heading →
          backspace s t txt = transitionContent s bid ContentClass.text ∧
          (backspace s t txt).blocks = s.blocks ∧
          ∃ d', storeGet (backspace s t txt) bid = some d' ∧
            d'.child.variant = ContentClass.text) ∧
        (contentType d.child.variant = NodeType.text →
          backspace s t txt = deleteBlockIfNotLast s bid)) := by
  refine ⟨?_, ?_, ?_⟩
  · intro hres
    unfold backspace
    rw [hres]
  · intro htxt
    unfold backspace
    cases hres : findNearestBlockOfDOMNode s t with
    | none => rfl
    | some bid =>
      dsimp only
      rw [if_pos htxt]
  · intro bid hres htxt
    rcases resolve_stored hwf hres with ⟨d, hd⟩
    refine ⟨d, hd, ?_, ?_⟩
    · intro hh
      have hback : backspace s t txt
          = transitionContent s bid ContentClass.text := by
        unfold backspace
        rw [hres]
        dsimp only
        rw [if_neg (by simp [htxt]), hd]
        show (match contentType d.child.variant with
          | NodeType.heading => transitionContent s bid ContentClass.text
          | NodeType.text => deleteBlockIfNotLast s bid
          | NodeType.block => s) = _
        rw [hh]
      refine ⟨hback, ?_, ?_⟩
      · rw [hback, transitionContent_eq ContentClass.text hd]
      · rw [hback]
        exact ⟨_, storeGet_transitionContent_self ContentClass.text hd, rfl⟩
    · intro hh
      unfold backspace
      rw [hres]
      dsimp only
      rw [if_neg (by simp [htxt]), hd]
      show (match contentType d.child.variant with
        | NodeType.heading => transitionContent s bid ContentClass.text
        | NodeType.text => deleteBlockIfNotLast s bid
        | NodeType.block => s) = _
      rw [hh]

theorem C4_witness :
    backspace (handleMutation BlockList.init 2 "# ") 4 "x"
      = handleMutation BlockList.init 2 "# " :=
  (C4_backspace_spec (handleMutation BlockList.init 2 "# ") 4 "x"
    (by decide)).2.1 (by decide)

/-- C5: `handleMutation` transitions the owning block's content to
Heading1, Heading2 or Heading3 exactly when the target's text content equals
the literal string "# ", "## " or "### " respectively; for any other text
content, and when no owning block resolves, the state is unchanged. -/
theorem C5_handleMutation_spec (s : BlockList) (t : Nat) (txt : String)
    (hwf : WF s) :
    (findNearestBlockOfDOMNode s t = none → handleMutation s t txt = s) ∧
    (∀ bid, findNearestBlockOfDOMNode s t = some bid →
      (txt = "# " →
        handleMutation s t txt = transitionContent s bid ContentClass.h1 ∧
        ∃ d', storeGet (handleMutation s t txt) bid = some d' ∧
          d'.child.variant = ContentClass.h1) ∧
      (txt = "## " →
        handleMutation s t txt = transitionContent s bid ContentClass.h2 ∧
        ∃ d', storeGet (handleMutation s t txt) bid = some d' ∧
          d'.child.variant = ContentClass.h2) ∧
      (txt = "### " →
        handleMutation s t txt = transitionContent s bid ContentClass.h3 ∧
        ∃ d', storeGet (handleMutation s t txt) bid = some d' ∧
          d'.child.variant = ContentClass.h3) ∧
      (txt ≠ "# " → txt ≠ "## " → txt ≠ "### " →
        handleMutation s t txt = s)) := by
  constructor
  · intro hres
    unfold handleMutation
    rw [hres]
  · intro bid hres
    rcases resolve_stored hwf hres with ⟨d, hd⟩
    refine ⟨?_, ?_, ?_, ?_⟩
    · intro h1
      have he : handleMutation s t txt
          = transitionContent s bid ContentClass.h1 := by
        unfold handleMutation
        rw [hres]
        dsimp only
        rw [if_pos h1]
      refine ⟨he, { d with child := ⟨ContentClass.h1, s.nextId⟩ }, ?_, rfl⟩
      rw [he]
      exact storeGet_transitionContent_self _ hd
    · intro h2
      have he : handleMutation s t txt
          = transitionContent s bid ContentClass.h2 := by
        unfold handleMutation
        rw [hres]
        dsimp only
        rw [if_neg (by simp [h2]), if_pos h2]
      refine ⟨he, { d with child := ⟨ContentClass.h2, s.nextId⟩ }, ?_, rfl⟩
      rw [he]
      exact storeGet_transitionContent_self _ hd
    · intro h3
      have he : handleMutation s t txt
          = transitionContent s bid ContentClass.h3 := by
        unfold handleMutation
        rw [hres]
        dsimp only
        rw [if_neg (by simp [h3]), if_neg (by simp [h3]), if_pos h3]
      refine ⟨he, { d with child := ⟨ContentClass.h3, s.nextId⟩ }, ?_, rfl⟩
      rw [he]
      exact storeGet_transitionContent_self _ hd
    · intro h1 h2 h3
      unfold handleMutation
      rw [hres]
      dsimp only
      rw [if_neg h1, if_neg h2, if_neg h3]

theorem C5_witness :
    handleMutation BlockList.init 2 "## "
      = transitionContent BlockList.init 3 ContentClass.h2 :=
  ((((C5_handleMutation_spec BlockList.init 2 "## " (by decide)).2 3
    (by decide)).2.1) (by decide)).1

/-- The `type` of a block's current content node, if the block exists. -/
def variantTypeAt (s : BlockList) (bid : Nat) : Option NodeType :=
  (storeGet s bid).map (fun d => contentType d.child.variant)

/-- C6 counterexample: in a reachable state whose single block has been
promoted to Heading2 (content "## "), a further content-mutation
notification whose text is "# " changes the existing Heading's variant in
place, from `h2` to `h1` — so `handleMutation` does re-promote an existing
Heading, contrary to the claim. -/
theorem C6_counterexample :
    Reachable (handleMutation (handleMutation BlockList.init 2 "## ") 4 "# ") ∧
    variantTypeAt (handleMutation BlockList.init 2 "## ") 3
      = some NodeType.heading ∧
    (storeGet (handleMutation BlockList.init 2 "## ") 3).map
      (fun d => d.child.variant) = some ContentClass.h2 ∧
    (storeGet (handleMutation (handleMutation BlockList.init 2 "## ") 4 "# ")
      3).map (fun d => d.child.variant) = some ContentClass.h1 :=
  ⟨Reachable.step
      (Reachable.step Reachable.init (Step.mutation _ 2 "## " (by decide)))
      (Step.mutation _ 4 "# " (by decide)),
    by decide, by decide, by decide⟩

/-- C6 amended: a content-mutation notification never demotes an existing
Heading to Text — after `handleMutation` a Heading block still has a Heading
child (though its level may change when the text is exactly a heading
prefix, as the counterexample shows) — and across every step of a
well-formed state, the only Heading-to-Text edge is a backspace. -/
theorem C6_amended :
    (∀ (s : BlockList) (t : Nat) (txt : String) (bid : Nat),
      variantTypeAt s bid = some NodeType.heading →
      variantTypeAt (handleMutation s t txt) bid = some NodeType.heading) ∧
    (∀ (s s' : BlockList) (bid : Nat), WF s → Step s s' →
      variantTypeAt s bid = some NodeType.heading →
      variantTypeAt s' bid = some NodeType.text →
      ∃ t txt, s' = backspace s t txt) := by
  have hchild : ∀ (s1 s2 : BlockList) (bid : Nat),
      ((storeGet s2 bid).map (fun d => d.child)
        = (storeGet s1 bid).map (fun d => d.child)) →
      variantTypeAt s1 bid = some NodeType.heading →
      variantTypeAt s2 bid = some NodeType.text → False := by
    intro s1 s2 bid hpres hh ht
    unfold variantTypeAt at hh ht
    rcases Option.map_eq_some'.mp hh with ⟨d1, hd1, hv1⟩
    rcases Option.map_eq_some'.mp ht with ⟨d2, hd2, hv2⟩
    rw [hd1, hd2] at hpres
    simp only [Option.map_some'] at hpres
    have hcc : d2.child = d1.child := Option.some.inj hpres
    rw [hcc, hv1] at hv2
    cases hv2
  constructor
  · intro s t txt bid h
    exact mutation_keeps_heading s t txt bid h
  · intro s s' bid hwf hstep hh ht
    cases hstep with
    | add =>
      exfalso
      rcases Option.map_eq_some'.mp hh with ⟨d1, hd1, _⟩
      obtain ⟨_, _, _, _, _, _, _, _, _, _, hsB, _, _⟩ := hwf
      have hlt : bid < s.nextId :=
        (hsB _ (alookup_mem (show alookup s.store bid = some d1 from hd1))).1
      exact hchild s (addBlockBelowCurrent s) bid
        (storeGet_addBlockBelowCurrent_child s bid hlt) hh ht
    | up =>
      exact absurd ht (by
        have := hchild s (arrowUp s) bid (storeGet_arrowUp_child s bid) hh
        intro hc
        exact this hc)
    | down =>
      exact absurd ht (by
        have := hchild s (arrowDown s) bid (storeGet_arrowDown_child s bid) hh
        intro hc
        exact this hc)
    | back t txt h => exact ⟨t, txt, rfl⟩
    | mutation t txt h =>
      exfalso
      have hkeep := mutation_keeps_heading s t txt bid hh
      unfold variantTypeAt at ht
      rw [ht] at hkeep
      cases hkeep
    | click b h =>
      exact absurd ht (by
        have := hchild s (setActiveBlock s b) bid
          (storeGet_setActiveBlock_child s b bid) hh
        intro hc
        exact this hc)

theorem C6_witness :
    variantTypeAt (handleMutation (handleMutation BlockList.init 2 "## ") 4
      "# ") 3 = some NodeType.heading :=
  C6_amended.1 (handleMutation BlockList.init 2 "## ") 4 "# " 3 (by decide)

/-- C7 counterexample: in the reachable state where the single block's
content was promoted to Heading2, the new content node's surface is node 4,
but a direct IdentityIndex (`blockOfDOMNode`) lookup of that surface misses:
`replaceBlockChild` never registers the new content surface in the WeakMap
— only block root surfaces are registered. -/
theorem C7_counterexample :
    Reachable (handleMutation BlockList.init 2 "## ") ∧
    (storeGet (handleMutation BlockList.init 2 "## ") 3).map
      (fun d => d.child.surface) = some 4 ∧
    lookupIndex (handleMutation BlockList.init 2 "## ") 4 = none :=
  ⟨Reachable.step Reachable.init (Step.mutation _ 2 "## " (by decide)),
    by decide, by decide⟩

/-- C7 amended: after `transitionContent` (`replaceBlockChild`), the old
content node's surface is detached and the new content node's surface is
attached under the block's root surface, so the ancestor-walk resolution
(`findNearestBlockOfDOMNode`) of the new content surface returns the block;
the direct WeakMap entry remains the block's root surface only — the new
content surface itself has no direct entry. -/
theorem C7_amended (s : BlockList) (bid : Nat) (v : ContentClass)
    (hwf : WF s) (hb : bid ∈ s.blocks) :
    ∃ d, storeGet s bid = some d ∧
      parentNode (transitionContent s bid v) d.child.surface = none ∧
      ∃ d', storeGet (transitionContent s bid v) bid = some d' ∧
        d'.child.variant = v ∧
        parentNode (transitionContent s bid v) d'.child.surface
          = some d.surface ∧
        findNearestBlockOfDOMNode (transitionContent s bid v) d'.child.surface
          = some bid ∧
        lookupIndex (transitionContent s bid v) d'.child.surface = none := by
  obtain ⟨hne, hnd, ham, hsk, hpk, haf, hdi, hlb, hst, hfr⟩ := hwf
  obtain ⟨hn1, hsB, hdiB, hpoB⟩ := hfr
  rcases OptP_iff.mp (hlb bid hb) with ⟨d, hd, hg1, hg2, hg3⟩
  have hd' : alookup s.store bid = some d := hd
  have hg1' : alookup s.domIndex d.surface = some bid := hg1
  have hbB : bid < s.nextId ∧ 1 ≤ d.surface ∧ d.surface < s.nextId ∧
      1 ≤ d.child.surface ∧ d.child.surface < s.nextId :=
    hsB _ (alookup_mem hd')
  have hlknone : alookup s.domIndex s.nextId = none :=
    alookup_of_bound (fun e he => (hdiB e he).2)
  have hpar : alookup ((s.nextId, d.surface) ::
      eraseKey s.parentOf d.child.surface) s.nextId = some d.surface := by
    rw [alookup_cons, if_pos rfl]
  refine ⟨d, hd, ?_, { d with child := ⟨v, s.nextId⟩ },
    storeGet_transitionContent_self v hd, rfl, ?_, ?_, ?_⟩
  · rw [transitionContent_eq v hd]
    show alookup ((s.nextId, d.surface) ::
      eraseKey s.parentOf d.child.surface) d.child.surface = none
    rw [alookup_cons, if_neg (by omega)]
    exact alookup_eraseKey_self _ _
  · rw [transitionContent_eq v hd]
    exact hpar
  · rw [transitionContent_eq v hd]
    unfold findNearestBlockOfDOMNode
    dsimp only
    have hlk' : lookupIndex { s with
        store := storeSet s.store bid
          (fun d' => { d' with child := ⟨v, s.nextId⟩ })
        parentOf := (s.nextId, d.surface) :: eraseKey s.parentOf d.child.surface
        nextId := s.nextId + 1 } s.nextId = none := hlknone
    rw [hlk']
    show (match alookup ((s.nextId, d.surface) ::
        eraseKey s.parentOf d.child.surface) s.nextId with
      | none => none
      | some p =>
        match alookup s.domIndex p with
        | some b => some b
        | none => walkUp { s with
            store := storeSet s.store bid
              (fun d' => { d' with child := ⟨v, s.nextId⟩ })
            parentOf := (s.nextId, d.surface) ::
              eraseKey s.parentOf d.child.surface
            nextId := s.nextId + 1 }
            (eraseKey s.parentOf d.child.surface).length p) = some bid
    rw [hpar]
    dsimp only
    rw [hg1']
  · rw [transitionContent_eq v hd]
    exact hlknone

theorem C7_witness :
    ∃ d, storeGet BlockList.init 3 = some d ∧
      parentNode (transitionContent BlockList.init 3 ContentClass.h2)
        d.child.surface = none ∧
      ∃ d', storeGet (transitionContent BlockList.init 3 ContentClass.h2) 3
          = some d' ∧
        d'.child.variant = ContentClass.h2 ∧
        parentNode (transitionContent BlockList.init 3 ContentClass.h2)
          d'.child.surface = some d.surface ∧
        findNearestBlockOfDOMNode (transitionContent BlockList.init 3
          ContentClass.h2) d'.child.surface = some 3 ∧
        lookupIndex (transitionContent BlockList.init 3 ContentClass.h2)
          d'.child.surface = none :=
  C7_amended BlockList.init 3 ContentClass.h2 (by decide) (by decide)

/-- C8 counterexample: insert a second block below the first, then delete it
with backspace on its empty text child.  In the resulting reachable state,
block 6 is no longer in `blocks`, yet its root surface 4 still has its
WeakMap entry — `deleteBlockIfNotLast` never removes registrations — so
resolving the deleted block's surface returns the deleted block, not none. -/
theorem C8_counterexample :
    Reachable (backspace (addBlockBelowCurrent BlockList.init) 5 "") ∧
    6 ∉ (backspace (addBlockBelowCurrent BlockList.init) 5 "").blocks ∧
    (storeGet (backspace (addBlockBelowCurrent BlockList.init) 5 "") 6).map
      (fun d => d.surface) = some 4 ∧
    lookupIndex (backspace (addBlockBelowCurrent BlockList.init) 5 "") 4
      = some 6 ∧
    findNearestBlockOfDOMNode
      (backspace (addBlockBelowCurrent BlockList.init) 5 "") 4 = some 6 :=
  ⟨Reachable.step (Reachable.step Reachable.init (Step.add _))
      (Step.back _ 5 "" (by decide)),
    by decide, by decide, by decide, by decide⟩

/-- C8 amended: in every reachable state, every block of `blocks` has a
registration in IdentityIndex (its root surface maps back to it); deletion,
however, does not remove the WeakMap registration — what deletion guarantees
is only that the surface of any registered block that is no longer in
`blocks` is detached from the rendered tree (cleanup of the weak map itself
is left to the host's garbage collector). -/
theorem C8_amended (s : BlockList) (h : Reachable s) :
    (∀ bid ∈ s.blocks, ∃ d, storeGet s bid = some d ∧
      lookupIndex s d.surface = some bid) ∧
    (∀ e ∈ s.domIndex, e.2 ∉ s.blocks → parentNode s e.1 = none) := by
  obtain ⟨hne, hnd, ham, hsk, hpk, haf, hdi, hlb, hst, hfr⟩ := reachable_wf h
  constructor
  · intro bid hb
    rcases OptP_iff.mp (hlb bid hb) with ⟨d, hd, hg1, _, _⟩
    exact ⟨d, hd, hg1⟩
  · exact hst

theorem C8_witness :
    (∀ bid ∈ BlockList.init.blocks, ∃ d, storeGet BlockList.init bid = some d ∧
      lookupIndex BlockList.init d.surface = some bid) ∧
    (∀ e ∈ BlockList.init.domIndex, e.2 ∉ BlockList.init.blocks →
      parentNode BlockList.init e.1 = none) :=
  C8_amended BlockList.init Reachable.init

/-- C9: with the active block at (first) index `i`, `addBlockBelowCurrent`
creates exactly one new block with a default Text content node, marks it
active, places it at index `i + 1` in `blocks` (appending when the
previously active block was last), and grows `blocks` by exactly one. -/
theorem C9_insert_spec (s : BlockList) (i : Nat) (hwf : WF s)
    (hi : firstIdx s.activeId s.blocks = some i) :
    ∃ bid, bid ∉ s.blocks ∧
      (addBlockBelowCurrent s).blocks = insertAt s.blocks (i + 1) bid ∧
      (addBlockBelowCurrent s).activeId = bid ∧
      (∃ d, storeGet (addBlockBelowCurrent s) bid = some d ∧
        d.child.variant = ContentClass.text ∧ d.isActive = true) ∧
      (addBlockBelowCurrent s).blocks.length = s.blocks.length + 1 := by
  obtain ⟨hne, hnd, ham, hsk, hpk, haf, hdi, hlb, hst, hfr⟩ := hwf
  obtain ⟨hn1, hsB, hdiB, hpoB⟩ := hfr
  have hblkB : ∀ b ∈ s.blocks, b < s.nextId := by
    intro b hb
    rcases OptP_iff.mp (hlb b hb) with ⟨db, hdb, _⟩
    exact (hsB _ (alookup_mem (show alookup s.store b = some db from hdb))).1
  have hfresh : s.nextId + 2 ∉ s.blocks := by
    intro hc
    have := hblkB _ hc
    omega
  have hilt : i < s.blocks.length := firstIdx_lt_length hi
  have hblocks := addBlockBelowCurrent_blocks hi
  refine ⟨s.nextId + 2, hfresh, hblocks, addBlockBelowCurrent_activeId s,
    ?_, ?_⟩
  · have hq : alookup (storeSet (storeSet ((s.nextId + 2,
        ⟨s.nextId, ⟨ContentClass.text, s.nextId + 1⟩, false⟩) :: s.store)
        s.activeId (setIsActive false)) (s.nextId + 2) (setIsActive true))
        (s.nextId + 2)
        = some (setIsActive true (if (s.nextId + 2 : Nat) = s.activeId
            then setIsActive false
              ⟨s.nextId, ⟨ContentClass.text, s.nextId + 1⟩, false⟩
            else ⟨s.nextId, ⟨ContentClass.text, s.nextId + 1⟩, false⟩)) := by
      rw [alookup_storeSet, alookup_storeSet, alookup_cons, if_pos rfl]
      simp
    refine ⟨setIsActive true (if (s.nextId + 2 : Nat) = s.activeId
        then setIsActive false
          ⟨s.nextId, ⟨ContentClass.text, s.nextId + 1⟩, false⟩
        else ⟨s.nextId, ⟨ContentClass.text, s.nextId + 1⟩, false⟩), ?_, ?_, rfl⟩
    · show alookup (addBlockBelowCurrent s).store (s.nextId + 2) = _
      rw [addBlockBelowCurrent_store]
      exact hq
    · show (setIsActive true (if (s.nextId + 2 : Nat) = s.activeId
          then setIsActive false
            ⟨s.nextId, ⟨ContentClass.text, s.nextId + 1⟩, false⟩
          else ⟨s.nextId, ⟨ContentClass.text, s.nextId + 1⟩, false⟩)).child.variant
        = ContentClass.text
      split <;> rfl
  · rw [hblocks]
    exact length_insertAt _ (by omega)

theorem C9_witness :
    ∃ bid, bid ∉ BlockList.init.blocks ∧
      (addBlockBelowCurrent BlockList.init).blocks
        = insertAt BlockList.init.blocks 1 bid ∧
      (addBlockBelowCurrent BlockList.init).activeId = bid ∧
      (∃ d, storeGet (addBlockBelowCurrent BlockList.init) bid = some d ∧
        d.child.variant = ContentClass.text ∧ d.isActive = true) ∧
      (addBlockBelowCurrent BlockList.init).blocks.length
        = BlockList.init.blocks.length + 1 :=
  C9_insert_spec BlockList.init 0 (by decide) (by decide)

/-- C10: calling the public `createActiveBlock` directly returns a block
that is marked active and registered in IdentityIndex, but the `blocks`
sequence is unchanged by the call — so the active block is then not an
element of `blocks`. -/
theorem C10_createActiveBlock_spec (s : BlockList) (hwf : WF s) :
    ((createActiveBlock s).2.2).blocks = s.blocks ∧
    ((createActiveBlock s).2.2).activeId = (createActiveBlock s).1 ∧
    (∃ d, storeGet ((createActiveBlock s).2.2) ((createActiveBlock s).1)
        = some d ∧ d.isActive = true ∧
      lookupIndex ((createActiveBlock s).2.2) d.surface
        = some (createActiveBlock s).1) ∧
    (createActiveBlock s).1 ∉ ((createActiveBlock s).2.2).blocks := by
  obtain ⟨hne, hnd, ham, hsk, hpk, haf, hdi, hlb, hst, hfr⟩ := hwf
  obtain ⟨hn1, hsB, hdiB, hpoB⟩ := hfr
  have hblkB : ∀ b ∈ s.blocks, b < s.nextId := by
    intro b hb
    rcases OptP_iff.mp (hlb b hb) with ⟨db, hdb, _⟩
    exact (hsB _ (alookup_mem (show alookup s.store b = some db from hdb))).1
  rw [createActiveBlock_eq]
  refine ⟨rfl, rfl, ?_, ?_⟩
  · have hq : alookup (storeSet (storeSet ((s.nextId + 2,
        ⟨s.nextId, ⟨ContentClass.text, s.nextId + 1⟩, false⟩) :: s.store)
        s.activeId (setIsActive false)) (s.nextId + 2) (setIsActive true))
        (s.nextId + 2)
        = some (setIsActive true (if (s.nextId + 2 : Nat) = s.activeId
            then setIsActive false
              ⟨s.nextId, ⟨ContentClass.text, s.nextId + 1⟩, false⟩
            else ⟨s.nextId, ⟨ContentClass.text, s.nextId + 1⟩, false⟩)) := by
      rw [alookup_storeSet, alookup_storeSet, alookup_cons, if_pos rfl]
      simp
    refine ⟨_, hq, rfl, ?_⟩
    have hsurf : (setIsActive true (if (s.nextId + 2 : Nat) = s.activeId
        then setIsActive false
          ⟨s.nextId, ⟨ContentClass.text, s.nextId + 1⟩, false⟩
        else ⟨s.nextId, ⟨ContentClass.text, s.nextId + 1⟩, false⟩)).surface
        = s.nextId := by
      split <;> rfl
    rw [hsurf]
    show alookup ((s.nextId, s.nextId + 2) :: s.domIndex) s.nextId
      = some (s.nextId + 2)
    rw [alookup_cons, if_pos rfl]
  · show s.nextId + 2 ∉ s.blocks
    intro hc
    have := hblkB _ hc
    omega

theorem C10_witness :
    ((createActiveBlock BlockList.init).2.2).blocks = BlockList.init.blocks ∧
    ((createActiveBlock BlockList.init).2.2).activeId
      = (createActiveBlock BlockList.init).1 ∧
    (∃ d, storeGet ((createActiveBlock BlockList.init).2.2)
        ((createActiveBlock BlockList.init).1) = some d ∧ d.isActive = true ∧
      lookupIndex ((createActiveBlock BlockList.init).2.2) d.surface
        = some (createActiveBlock BlockList.init).1) ∧
    (createActiveBlock BlockList.init).1
      ∉ ((createActiveBlock BlockList.init).2.2).blocks :=
  C10_createActiveBlock_spec BlockList.init (by decide)
